import Mathlib

/-!
Verification of the HTML-safe text-node extraction/substitution pipeline of the
Hum_TEXT repository (src/app.py and src/dump.py).

The Python code parses HTML with BeautifulSoup/lxml into a node tree and then
operates purely on that tree.  We embed the parsed tree shallowly as the
inductive type `Dom` below (first-child / next-sibling encoding of an ordered
forest of element and text nodes; a `Dom` value models a forest, typically the
children of the BeautifulSoup document object).  Tree-transforming Python
functions become structurally recursive Lean functions; the mutable
`hid_counter` / `mapping` state of `tag_text_nodes` becomes explicit
state-passing.  All claims about HTML strings are read modulo the
normalisation performed by the HTML parser itself, as the specification
stipulates, so they are stated on parsed trees.

Python string primitives used by the code (`str.strip`, `str.lower`, `len`,
f-strings, `json.loads`, `re.search`) are modelled over `String`/`List Char`;
the JSON parser models `json.loads` on the JSON fragment the code exchanges
(objects, arrays, strings with the common escapes, integers, booleans, null).
-/

set_option maxRecDepth 4000

/-! ### Python string primitives -/

/-- Whitespace as stripped by Python's `str.strip()` (ASCII subset; the inputs
relevant here use ASCII whitespace). -/
def isPySpace (c : Char) : Bool :=
  c = ' ' || c = '\t' || c = '\n' || c = '\r' || c = '\x0b' || c = '\x0c'

/-- Models the Python guard `text and text.strip()`: the string is non-empty
and its stripped form is non-empty, i.e. it has a non-whitespace character. -/
def pyNonBlank (s : String) : Bool :=
  s.data.any (fun c => !(isPySpace c))

/-- Models Python `str.lower()` (ASCII letters; tag names are ASCII). -/
def pyLower (s : String) : String :=
  ⟨s.data.map Char.toLower⟩

/-- First-match association-list lookup, modelling Python `dict[k]` /
`k in dict` / `dict.get(k)` on dictionaries (whose keys are unique). -/
def lookupS : List (String × String) → String → Option String
  | [], _ => none
  | p :: rest, k => if p.1 = k then some p.2 else lookupS rest k

/-- Models `del attrs[k]` on a BeautifulSoup attribute dictionary (keys are
unique, so removing every binding of `k` removes exactly one). -/
def delAttr : List (String × String) → String → List (String × String)
  | [], _ => []
  | p :: rest, k => if p.1 = k then delAttr rest k else p :: delAttr rest k

/-- Models the f-string `f"t{hid_counter}"` producing the sequential ids. -/
def tid (n : Nat) : String := "t" ++ Nat.repr n

/-! ### Decimal representation: auxiliary development

`tid` must be injective for id lookups to be unambiguous; we prove
injectivity of `Nat.repr` from first principles. -/

/-- Reference decimal-digit list of a natural number (most significant first). -/
def specDigits (n : Nat) : List Char :=
  if n < 10 then [Nat.digitChar n]
  else specDigits (n / 10) ++ [Nat.digitChar (n % 10)]
decreasing_by exact Nat.div_lt_self (by omega) (by omega)

/-- Decimal value of a digit list, accumulator style. -/
def digitsValAcc : Nat → List Char → Nat
  | acc, [] => acc
  | acc, c :: rest => digitsValAcc (10 * acc + (c.toNat - 48)) rest

/-! ### The parsed HTML tree -/

/-- A parsed HTML forest: either empty, a text node (`NavigableString`)
followed by its siblings, or an element (`Tag`, with name, attribute list and
child forest) followed by its siblings.  A document is the forest of children
of the BeautifulSoup object. -/
inductive Dom where
  | nil
  | text (s : String) (sib : Dom)
  | elem (name : String) (attrs : List (String × String)) (child : Dom) (sib : Dom)
deriving Repr, DecidableEq

/-- The record stored per text node by `extract_text_nodes_as_mapping`
(src/app.py: `NodeInfo`). -/
structure NodeInfo where
  text : String
  parent_tag : String
deriving Repr, DecidableEq

/-- First-match lookup in the id → NodeInfo mapping. -/
def lookupNI : List (String × NodeInfo) → String → Option NodeInfo
  | [], _ => none
  | p :: rest, k => if p.1 = k then some p.2 else lookupNI rest k

/-- The elements removed wholesale before tokenising
(src/app.py lines 99-100: `soup(["script", "style", "noscript"])`). -/
def isBadTag (n : String) : Bool :=
  n = "script" || n = "style" || n = "noscript"

/-- Models `for bad in soup([...]): bad.extract()`: every script/style/noscript
element is removed from the tree together with its entire subtree. -/
def stripBad : Dom → Dom
  | .nil => .nil
  | .text s sib => .text s (stripBad sib)
  | .elem n a ch sib =>
      if isBadTag n then stripBad sib else .elem n a (stripBad ch) (stripBad sib)

/-- Models `t.name.lower() if isinstance(t, Tag) and t.name else "div"`
(src/app.py line 117): the lower-cased name of the immediate container,
defaulting to "div" when the container is untyped/unnamed. -/
def parent_tag_of (n : String) : String :=
  if n = "" then "div" else pyLower n

/-- Models the recursive worker `tag_text_nodes` (src/app.py lines 105-120)
applied to the child forest of a container named `pname`: every text child
whose content is non-blank is wrapped in `<span data-hid="t{k}">`, assigned
the next sequential id, and recorded in the mapping; element children are
descended into depth-first; whitespace-only text children are left as they
are.  The mutable `hid_counter` and `mapping` become the `c`/`m` arguments. -/
def tag_text_nodes : String → Dom → Nat → List (String × NodeInfo) →
    Dom × Nat × List (String × NodeInfo)
  | _, .nil, c, m => (.nil, c, m)
  | pname, .text s sib, c, m =>
      if pyNonBlank s then
        let hid := tid (c + 1)
        let (sib', c', m') :=
          tag_text_nodes pname sib (c + 1)
            (m ++ [(hid, NodeInfo.mk s (parent_tag_of pname))])
        (.elem "span" [("data-hid", hid)] (.text s .nil) sib', c', m')
      else
        let (sib', c', m') := tag_text_nodes pname sib c m
        (.text s sib', c', m')
  | pname, .elem n a ch sib, c, m =>
      let (ch', c1, m1) := tag_text_nodes n ch c m
      let (sib', c2, m2) := tag_text_nodes pname sib c1 m1
      (.elem n a ch' sib', c2, m2)

/-- Models `soup.body` combined with `tag_text_nodes(soup.body)`: locate the
first element named "body" in document order and process its children
(src/app.py line 122, the `soup.body` branch).  Returns the transformed
forest, the final counter and mapping, and whether a body was found. -/
def process_first_body : Dom → Nat → List (String × NodeInfo) →
    Dom × Nat × List (String × NodeInfo) × Bool
  | .nil, c, m => (.nil, c, m, false)
  | .text s sib, c, m =>
      let (sib', c', m', f) := process_first_body sib c m
      (.text s sib', c', m', f)
  | .elem n a ch sib, c, m =>
      if n = "body" then
        let (ch', c', m') := tag_text_nodes n ch c m
        (.elem n a ch' sib, c', m', true)
      else
        match process_first_body ch c m with
        | (ch', c', m', true) => (.elem n a ch' sib, c', m', true)
        | (_, _, _, false) =>
            let (sib', c', m', f) := process_first_body sib c m
            (.elem n a ch sib', c', m', f)

/-- Models `extract_text_nodes_as_mapping` (src/app.py lines 95-123):
strip script/style/noscript, then run `tag_text_nodes(soup.body or soup)`.
When no body element exists the whole document's children are processed with
the BeautifulSoup document object (named "[document]") as container. -/
def extract_text_nodes_as_mapping (doc : Dom) :
    Dom × List (String × NodeInfo) :=
  let d := stripBad doc
  match process_first_body d 0 [] with
  | (d', _, m', true) => (d', m')
  | (_, _, _, false) =>
      let (d', _, m') := tag_text_nodes "[document]" d 0 []
      (d', m')

/-- Pass 1 of `replace_text_nodes_from_mapping` (src/app.py lines 128-131):
for every element carrying a `data-hid` attribute whose id is in the
replacement dictionary, replace its entire content with the replacement text
(`span.string = replacements[hid]`). Elements whose id is absent, and
elements without the attribute, keep their children (which are processed
recursively, matching `find_all` over the whole tree). -/
def set_replacement_strings (repl : List (String × String)) : Dom → Dom
  | .nil => .nil
  | .text s sib => .text s (set_replacement_strings repl sib)
  | .elem n a ch sib =>
      match lookupS a "data-hid" with
      | some hid =>
          match lookupS repl hid with
          | some v =>
              .elem n a (.text v .nil) (set_replacement_strings repl sib)
          | none =>
              .elem n a (set_replacement_strings repl ch)
                (set_replacement_strings repl sib)
      | none =>
          .elem n a (set_replacement_strings repl ch)
            (set_replacement_strings repl sib)

/-- Pass 2 of `replace_text_nodes_from_mapping` (src/app.py lines 133-134):
`del span["data-hid"]` on every element that has the attribute. -/
def strip_hid_attrs : Dom → Dom
  | .nil => .nil
  | .text s sib => .text s (strip_hid_attrs sib)
  | .elem n a ch sib =>
      .elem n (if (lookupS a "data-hid").isSome then delAttr a "data-hid" else a)
        (strip_hid_attrs ch) (strip_hid_attrs sib)

/-- Models `replace_text_nodes_from_mapping` (src/app.py lines 126-135,
identically src/dump.py lines 63-71): substitute the edited strings, then
remove the bookkeeping attribute. -/
def replace_text_nodes_from_mapping (doc : Dom)
    (repl : List (String × String)) : Dom :=
  strip_hid_attrs (set_replacement_strings repl doc)

/-- Concatenated text content of all text nodes, modelling the visible text
of the tree (`soup.get_text()` with empty separator). -/
def visible_text : Dom → String
  | .nil => ""
  | .text s sib => s ++ visible_text sib
  | .elem _ _ ch sib => visible_text ch ++ visible_text sib

/-- All text-leaf contents of the forest in document order. -/
def textLeaves : Dom → List String
  | .nil => []
  | .text s sib => s :: textLeaves sib
  | .elem _ _ ch sib => textLeaves ch ++ textLeaves sib

/-- Does the forest contain a script/style/noscript element anywhere? -/
def hasBadElem : Dom → Bool
  | .nil => false
  | .text _ sib => hasBadElem sib
  | .elem n _ ch sib => isBadTag n || hasBadElem ch || hasBadElem sib

/-- Does the forest contain an element with a `data-hid` attribute? -/
def hasHidAttr : Dom → Bool
  | .nil => false
  | .text _ sib => hasHidAttr sib
  | .elem _ a ch sib =>
      (lookupS a "data-hid").isSome || hasHidAttr ch || hasHidAttr sib

/-- Append a node at the end of a forest, modelling `container.append(p)`. -/
def appendChild : Dom → Dom → Dom
  | .nil, p => p
  | .text s sib, p => .text s (appendChild sib p)
  | .elem n a ch sib, p => .elem n a ch (appendChild sib p)

/-- Locate the first element named "body" in document order and append the
given node to its children; reports whether a body was found. -/
def append_to_first_body (p : Dom) : Dom → Dom × Bool
  | .nil => (.nil, false)
  | .text s sib =>
      let (sib', f) := append_to_first_body p sib
      (.text s sib', f)
  | .elem n a ch sib =>
      if n = "body" then (.elem n a (appendChild ch p) sib, true)
      else
        match append_to_first_body p ch with
        | (ch', true) => (.elem n a ch' sib, true)
        | (_, false) =>
            let (sib', f) := append_to_first_body p sib
            (.elem n a ch sib', f)

/-- The marker text `f"[Words: {n}]"` (src/app.py line 81). -/
def marker_text (n : Nat) : String := "[Words: " ++ Nat.repr n ++ "]"

/-- The marker paragraph `<p>[Words: n]</p>` (src/app.py lines 80-81). -/
def markerPara (n : Nat) : Dom :=
  .elem "p" [] (.text (marker_text n) .nil) .nil

/-- Models `append_words_marker_to_html` (src/app.py lines 76-85, identically
src/dump.py lines 88-98): `container = soup.body or soup;
container.append(p)` — the marker paragraph is appended to the first body
element, or to the document itself when no body exists.  (The `except`
branch concatenates plain strings and is unreachable on a parsed tree.) -/
def append_words_marker_to_html (doc : Dom) (n : Nat) : Dom :=
  match append_to_first_body (markerPara n) doc with
  | (d, true) => d
  | (_, false) => appendChild doc (markerPara n)

/-- Number of text leaves whose content equals `target` (used to count
occurrences of a given `[Words: n]` marker). -/
def count_marker_leaves (target : String) : Dom → Nat
  | .nil => 0
  | .text s sib =>
      (if s = target then 1 else 0) + count_marker_leaves target sib
  | .elem _ _ ch sib =>
      count_marker_leaves target ch + count_marker_leaves target sib

/-! ### Specification-side descriptions

The following definitions transcribe the *specification's* wording (used for
refinement comparisons against the source-derived functions above and as
proof characterisations of the stateful traversals). -/

/-- Spec-side: wrap every non-blank text leaf of a forest in an
attribute-less `span` element, leaving everything else unchanged. -/
def wrap_spans_spec : Dom → Dom
  | .nil => .nil
  | .text s sib =>
      if pyNonBlank s then
        .elem "span" [] (.text s .nil) (wrap_spans_spec sib)
      else .text s (wrap_spans_spec sib)
  | .elem n a ch sib => .elem n a (wrap_spans_spec ch) (wrap_spans_spec sib)

/-- Spec-side: apply `wrap_spans_spec` inside the first body element in
document order; reports whether a body was found. -/
def wrap_first_body_spec : Dom → Dom × Bool
  | .nil => (.nil, false)
  | .text s sib =>
      let (sib', f) := wrap_first_body_spec sib
      (.text s sib', f)
  | .elem n a ch sib =>
      if n = "body" then (.elem n a (wrap_spans_spec ch) sib, true)
      else
        match wrap_first_body_spec ch with
        | (ch', true) => (.elem n a ch' sib, true)
        | (_, false) =>
            let (sib', f) := wrap_first_body_spec sib
            (.elem n a ch sib', f)

/-- Spec-side: the shape the round trip actually produces — the stripped
input with every tokenised text leaf wrapped in a bare `span` (inside the
first body when one exists, otherwise over the whole document). -/
def roundtrip_spec (doc : Dom) : Dom :=
  let d := stripBad doc
  match wrap_first_body_spec d with
  | (d', true) => d'
  | (_, false) => wrap_spans_spec d

/-- Spec-side: the `{text, parent_tag}` records of all non-blank text leaves
of a forest in depth-first document order, the container being named
`pname`. -/
def leaf_records_spec : String → Dom → List NodeInfo
  | _, .nil => []
  | pname, .text s sib =>
      (if pyNonBlank s then [NodeInfo.mk s (parent_tag_of pname)] else []) ++
        leaf_records_spec pname sib
  | pname, .elem n _ ch sib =>
      leaf_records_spec n ch ++ leaf_records_spec pname sib

/-- Spec-side: the leaf records of the first body element's children (in
document order); reports whether a body was found. -/
def body_leaf_records_spec : Dom → List NodeInfo × Bool
  | .nil => ([], false)
  | .text _ sib => body_leaf_records_spec sib
  | .elem n _ ch sib =>
      if n = "body" then (leaf_records_spec n ch, true)
      else
        match body_leaf_records_spec ch with
        | (rs, true) => (rs, true)
        | (_, false) => body_leaf_records_spec sib

/-- Assign sequential ids `t(c+1), t(c+2), …` to a list of records. -/
def seq_ids : Nat → List NodeInfo → List (String × NodeInfo)
  | _, [] => []
  | c, r :: rs => (tid (c + 1), r) :: seq_ids (c + 1) rs

/-- The id strings `t(c+1), …, t(c+k)`. -/
def ids_from : Nat → Nat → List String
  | _, 0 => []
  | c, k + 1 => tid (c + 1) :: ids_from (c + 1) k

/-- Number of non-blank text leaves of a forest. -/
def nonblank_leaf_count : Dom → Nat
  | .nil => 0
  | .text s sib => (if pyNonBlank s then 1 else 0) + nonblank_leaf_count sib
  | .elem _ _ ch sib => nonblank_leaf_count ch + nonblank_leaf_count sib

/-- Proof-side characterisation of the skeleton produced by
`tag_text_nodes`: every non-blank text leaf is wrapped in a
`span[data-hid=t(k)]` with sequential ids starting at `c+1`. -/
def skeleton_with_ids : Nat → Dom → Dom
  | _, .nil => .nil
  | c, .text s sib =>
      if pyNonBlank s then
        .elem "span" [("data-hid", tid (c + 1))] (.text s .nil)
          (skeleton_with_ids (c + 1) sib)
      else .text s (skeleton_with_ids c sib)
  | c, .elem n a ch sib =>
      .elem n a (skeleton_with_ids c ch)
        (skeleton_with_ids (c + nonblank_leaf_count ch) sib)

/-- Spec-side: the id → record mapping the tokenizer should produce —
sequential ids `t1, t2, …` over the non-blank leaf records of the stripped
document's first body (or of the whole document when no body exists). -/
def mapping_spec (doc : Dom) : List (String × NodeInfo) :=
  let d := stripBad doc
  match body_leaf_records_spec d with
  | (rs, true) => seq_ids 0 rs
  | (_, false) => seq_ids 0 (leaf_records_spec "[document]" d)

/-- Spec-side transcription of the reassembler contract (spec section 4.4):
in one pass, each element carrying `data-hid` loses that attribute and — when
its id is in the map — has its content replaced by the edited string
(elements with absent ids keep their original content); every other node is
left untouched. -/
def repl_spec (repl : List (String × String)) : Dom → Dom
  | .nil => .nil
  | .text s sib => .text s (repl_spec repl sib)
  | .elem n a ch sib =>
      match lookupS a "data-hid" with
      | some hid =>
          match lookupS repl hid with
          | some v =>
              .elem n (delAttr a "data-hid") (.text v .nil) (repl_spec repl sib)
          | none =>
              .elem n (delAttr a "data-hid") (repl_spec repl ch)
                (repl_spec repl sib)
      | none => .elem n a (repl_spec repl ch) (repl_spec repl sib)

/-- The identity replacement map: every id mapped to its original text
(the no-edits round trip of the specification). -/
def original_replacements (m : List (String × NodeInfo)) :
    List (String × String) :=
  m.map (fun p => (p.1, p.2.text))

/-! ### JSON values and a model of `json.loads`

Python's `json.loads` is modelled on the fragment the code exchanges:
objects, arrays, strings with the common escapes (`\" \\ \/ \n \t \r \b \f`;
`\uXXXX` is not modelled), integer numerals, booleans and null.  Arrays and
objects are encoded as cons-chains inside a single inductive so that all
operations are plainly structural. -/

inductive Json where
  | null
  | bool (b : Bool)
  | num (n : Int)
  | str (s : String)
  | arrNil
  | arrCons (hd : Json) (tl : Json)
  | objNil
  | objCons (k : String) (v : Json) (tl : Json)
deriving Repr, DecidableEq

/-- Skip JSON whitespace. -/
def skipWs : List Char → List Char
  | c :: cs =>
      if c = ' ' || c = '\t' || c = '\n' || c = '\r' then skipWs cs
      else c :: cs
  | [] => []

/-- Parse the body of a JSON string after the opening quote. -/
def parseStrAcc : List Char → List Char → Option (String × List Char)
  | _, [] => none
  | acc, '"' :: rest => some (⟨acc.reverse⟩, rest)
  | acc, '\\' :: c :: rest =>
      if c = '"' then parseStrAcc ('"' :: acc) rest
      else if c = '\\' then parseStrAcc ('\\' :: acc) rest
      else if c = '/' then parseStrAcc ('/' :: acc) rest
      else if c = 'n' then parseStrAcc ('\n' :: acc) rest
      else if c = 't' then parseStrAcc ('\t' :: acc) rest
      else if c = 'r' then parseStrAcc ('\r' :: acc) rest
      else if c = 'b' then parseStrAcc ('\x08' :: acc) rest
      else if c = 'f' then parseStrAcc ('\x0c' :: acc) rest
      else none
  | _, '\\' :: [] => none
  | acc, c :: rest => parseStrAcc (c :: acc) rest

/-- Consume a run of decimal digits. -/
def parseDigitsAcc : Nat → List Char → Nat × List Char
  | acc, c :: rest =>
      if c.isDigit then parseDigitsAcc (10 * acc + (c.toNat - 48)) rest
      else (acc, c :: rest)
  | acc, [] => (acc, [])

/-- Parse an integer numeral (JSON floats are not modelled). -/
def parseNum : List Char → Option (Json × List Char)
  | '-' :: c :: rest =>
      if c.isDigit then
        let (v, r) := parseDigitsAcc (c.toNat - 48) rest
        some (.num (-(v : Int)), r)
      else none
  | c :: rest =>
      if c.isDigit then
        let (v, r) := parseDigitsAcc (c.toNat - 48) rest
        some (.num (v : Int), r)
      else none
  | [] => none

/-- Python-dict insertion: overwrite in place if the key exists (keeping the
first-insertion position, as Python dicts do), else append. -/
def jset : Json → String → Json → Json
  | .objCons k' v' tl, k, v =>
      if k' = k then .objCons k v tl else .objCons k' v' (jset tl k v)
  | .objNil, k, v => .objCons k v .objNil
  | other, _, _ => other

/-- Parser mode: a plain value, the member loop of an object, or the element
loop of an array (`canEnd` tells whether a closing bracket may come next,
i.e. we are not just after a comma). -/
inductive PMode where
  | val
  | objItems (acc : Json) (canEnd : Bool)
  | arrItems (acc : List Json) (canEnd : Bool)

/-- Rebuild an array chain from a reversed element list. -/
def arrOfRev : List Json → Json → Json
  | [], t => t
  | x :: xs, t => arrOfRev xs (.arrCons x t)

/-- Fuel-indexed JSON value parser (the fuel strictly exceeds the input
length, so it never runs out on the inputs `json_loads` passes in). -/
def parseJ : Nat → PMode → List Char → Option (Json × List Char)
  | 0, _, _ => none
  | fuel + 1, .val, cs =>
      match skipWs cs with
      | '{' :: rest => parseJ fuel (.objItems .objNil true) rest
      | '[' :: rest => parseJ fuel (.arrItems [] true) rest
      | '"' :: rest =>
          match parseStrAcc [] rest with
          | some (s, r) => some (.str s, r)
          | none => none
      | 't' :: 'r' :: 'u' :: 'e' :: rest => some (.bool true, rest)
      | 'f' :: 'a' :: 'l' :: 's' :: 'e' :: rest => some (.bool false, rest)
      | 'n' :: 'u' :: 'l' :: 'l' :: rest => some (.null, rest)
      | other => parseNum other
  | fuel + 1, .objItems acc canEnd, cs =>
      match skipWs cs with
      | '}' :: rest => if canEnd then some (acc, rest) else none
      | '"' :: rest =>
          match parseStrAcc [] rest with
          | some (k, r1) =>
              match skipWs r1 with
              | ':' :: r2 =>
                  match parseJ fuel .val r2 with
                  | some (v, r3) =>
                      match skipWs r3 with
                      | ',' :: r4 => parseJ fuel (.objItems (jset acc k v) false) r4
                      | '}' :: r4 => some (jset acc k v, r4)
                      | _ => none
                  | none => none
              | _ => none
          | none => none
      | _ => none
  | fuel + 1, .arrItems acc canEnd, cs =>
      match skipWs cs with
      | ']' :: rest =>
          if canEnd || acc.isEmpty then some (arrOfRev acc .arrNil, rest)
          else none
      | other =>
          match parseJ fuel .val other with
          | some (v, r1) =>
              match skipWs r1 with
              | ',' :: r2 => parseJ fuel (.arrItems (v :: acc) false) r2
              | ']' :: r2 => some (arrOfRev (v :: acc) .arrNil, r2)
              | _ => none
          | none => none

/-- Models `json.loads`: parse one JSON value and require only whitespace to
remain (leading prose such as `Sure! …` therefore fails, as in Python). -/
def json_loads (s : String) : Option Json :=
  match parseJ (2 * s.data.length + 2) PMode.val s.data with
  | some (v, rest) => if skipWs rest = [] then some v else none
  | none => none

/-! ### The gateway's response parsing and sanity fill -/

/-- Index of the first occurrence of `c`. -/
def firstIdxOf (c : Char) : List Char → Option Nat
  | [] => none
  | x :: rest =>
      if x = c then some 0
      else (firstIdxOf c rest).map (· + 1)

/-- Index of the last occurrence of `c`. -/
def lastIdxOf (c : Char) : List Char → Option Nat
  | [] => none
  | x :: rest =>
      match lastIdxOf c rest with
      | some j => some (j + 1)
      | none => if x = c then some 0 else none

/-- Models `re.search(r"\x7b.*\x7d", content, flags=re.DOTALL)` followed by
`m.group(0)` (src/app.py line 262, src/dump.py line 78): with a greedy `.*`
under DOTALL, the match runs from the first opening brace to the last closing
brace of the whole string, provided the latter comes after the former. -/
def brace_span (s : String) : Option String :=
  match firstIdxOf '\x7b' s.data, lastIdxOf '\x7d' s.data with
  | some i, some j =>
      if i < j then some ⟨(s.data.drop i).take (j - i + 1)⟩ else none
  | _, _ => none

/-- How a batch's response parsing can fail in `_call_openai_json_map`
(src/app.py lines 258-265): `notJsonInBatch i` is the explicit
`RuntimeError("Модель вернула не-JSON в батче %d" % i)` raised when no brace
span is found; `jsonDecodeError` is the `json.JSONDecodeError` that
propagates uncaught when the extracted span itself fails to parse. -/
inductive GatewayError where
  | notJsonInBatch (i : Nat)
  | jsonDecodeError
deriving Repr, DecidableEq

/-- Models the response-parsing block of `_call_openai_json_map`
(src/app.py lines 258-265) for batch number `i`: try `json.loads` directly;
on failure extract the greedy brace span and parse that; raise the
batch-numbered error only when no span exists.  (src/dump.py lines 72-84,
`_safe_json_loads`, is the same logic with an un-numbered `ValueError` and a
guarded second parse.) -/
def safe_json_loads_in_batch (i : Nat) (content : String) :
    Except GatewayError Json :=
  match json_loads content with
  | some v => Except.ok v
  | none =>
      match brace_span content with
      | none => Except.error (GatewayError.notJsonInBatch i)
      | some t =>
          match json_loads t with
          | some v => Except.ok v
          | none => Except.error GatewayError.jsonDecodeError

/-- Membership test `k not in parsed` on a parsed JSON object chain. -/
def jHasKey : Json → String → Bool
  | .objCons k' _ tl, k => if k' = k then true else jHasKey tl k
  | _, _ => false

/-- Lookup `parsed[k]` on a parsed JSON object chain. -/
def jget : Json → String → Option Json
  | .objCons k' v tl, k => if k' = k then some v else jget tl k
  | _, _ => none

/-- Is this value a well-formed object chain (what `json.loads` produces for
a JSON object)? -/
def isObjChain : Json → Bool
  | .objNil => true
  | .objCons _ _ tl => isObjChain tl
  | _ => false

/-- Rendering position for `pyReprCore`: a standalone value, or the tail of
an array / object chain (rendered with leading comma separators). -/
inductive RMode where
  | val
  | arrTail
  | objTail

/-- Python `repr` of a parsed JSON value (containers simplified to Python's
single-quoted display form; the claims only inspect it on scalars). -/
def pyReprCore : RMode → Json → String
  | .val, .null => "None"
  | .val, .bool b => if b then "True" else "False"
  | .val, .num n => if n < 0 then "-" ++ Nat.repr n.natAbs else Nat.repr n.natAbs
  | .val, .str s => "'" ++ s ++ "'"
  | .val, .arrNil => "[]"
  | .val, .arrCons h t =>
      "[" ++ pyReprCore .val h ++ pyReprCore .arrTail t ++ "]"
  | .val, .objNil => "\x7b\x7d"
  | .val, .objCons k v t =>
      "\x7b'" ++ k ++ "': " ++ pyReprCore .val v ++ pyReprCore .objTail t ++ "\x7d"
  | .arrTail, .arrCons h t => ", " ++ pyReprCore .val h ++ pyReprCore .arrTail t
  | .arrTail, _ => ""
  | .objTail, .objCons k v t =>
      ", '" ++ k ++ "': " ++ pyReprCore .val v ++ pyReprCore .objTail t
  | .objTail, _ => ""

/-- Python `str()` of a parsed JSON value: identity on strings, `repr`-like
on everything else (models the coercion `str(parsed[k])`,
src/app.py line 271). -/
def pyStr : Json → String
  | .str s => s
  | v => pyReprCore RMode.val v

/-- Models `sub_map[k]` (src/app.py line 234); the gateway only looks up
keys it put into `sub_map`, so the default is never reached there. -/
def subMapGet (sub_map : List (String × String)) (k : String) : String :=
  (lookupS sub_map k).getD ""

/-- Models the sanity-fill loop (src/app.py lines 268-270): for every
requested key absent from the parsed response, insert the original text. -/
def sanity_fill (batch_keys : List String)
    (sub_map : List (String × String)) (parsed : Json) : Json :=
  batch_keys.foldl
    (fun p k => if jHasKey p k then p else jset p k (Json.str (subMapGet sub_map k)))
    parsed

/-- Models `out.update({k: str(parsed[k]) for k in batch_keys})`
(src/app.py line 271) after the sanity fill: the per-batch output map. -/
def merge_batch_output (batch_keys : List String)
    (sub_map : List (String × String)) (parsed : Json) :
    List (String × String) :=
  let filled := sanity_fill batch_keys sub_map parsed
  batch_keys.map (fun k => (k, pyStr ((jget filled k).getD Json.null)))

/-! ### The batcher -/

/-- The character ceiling (src/app.py line 218). -/
def MAX_CHARS : Nat := 12000

/-- The estimated payload size of one id/text pair:
`len(k) + len(v) + 6` (src/app.py line 221). -/
def pairSize (kv : String × String) : Nat :=
  kv.1.length + kv.2.length + 6

/-- One step of the batching loop (src/app.py lines 220-227), state
`(batches, current, acc_len)`: flush the current batch when adding the next
item would exceed the ceiling and the current batch is non-empty; then append
the item's key and add its size. -/
def batch_step (st : List (List String) × List String × Nat)
    (kv : String × String) : List (List String) × List String × Nat :=
  if MAX_CHARS < st.2.2 + pairSize kv ∧ st.2.1 ≠ [] then
    (st.1 ++ [st.2.1], [kv.1], pairSize kv)
  else
    (st.1, st.2.1 ++ [kv.1], st.2.2 + pairSize kv)

/-- Models the batching loop of `_call_openai_json_map`
(src/app.py lines 215-229) over the items of `id_to_text` in insertion
order, with the trailing `if current: batches.append(current)`. -/
def make_batches (m : List (String × String)) : List (List String) :=
  let st := m.foldl batch_step ([], [], 0)
  if st.2.1 = [] then st.1 else st.1 ++ [st.2.1]

/-- Ghost variant of `batch_step` that keeps the full pairs in the batches
(the code rebuilds them immediately as `sub_map`); used to reason about
batch sizes. -/
def batch_step_kv
    (st : List (List (String × String)) × List (String × String) × Nat)
    (kv : String × String) :
    List (List (String × String)) × List (String × String) × Nat :=
  if MAX_CHARS < st.2.2 + pairSize kv ∧ st.2.1 ≠ [] then
    (st.1 ++ [st.2.1], [kv], pairSize kv)
  else
    (st.1, st.2.1 ++ [kv], st.2.2 + pairSize kv)

/-- Pair-carrying batches. -/
def make_batches_kv (m : List (String × String)) :
    List (List (String × String)) :=
  let st := m.foldl batch_step_kv ([], [], 0)
  if st.2.1 = [] then st.1 else st.1 ++ [st.2.1]

/-- Total estimated size of a pair batch. -/
def batchTotal (b : List (String × String)) : Nat :=
  (b.map pairSize).sum

/-- The text a key denotes in the mapping (first match; the mapping is a
Python dict, so keys are unique). -/
def textOf (m : List (String × String)) (k : String) : String :=
  (lookupS m k).getD ""

/-- Estimated payload size of one id as the spec states it:
`len(id) + len(text) + fixed_overhead`. -/
def itemSize (m : List (String × String)) (k : String) : Nat :=
  k.length + (textOf m k).length + 6

/-- Estimated payload size of an id batch. -/
def estSize (m : List (String × String)) (b : List String) : Nat :=
  (b.map (itemSize m)).sum

/-! ### `is_html` -/

/-- Does the character list contain `a` immediately followed by `b`
(models Python's `"</" in text` / `"/>" in text`)? -/
def hasPairSub (a b : Char) : List Char → Bool
  | x :: y :: rest => (x = a && y = b) || hasPairSub a b (y :: rest)
  | _ => false

/-- Does the character list start with an ASCII letter and contain a later
`>` (the part of the tag pattern after the `<`)? -/
def nextAlphaThenGt : List Char → Bool
  | c :: rest2 => c.isAlpha && rest2.contains '>'
  | [] => false

/-- Models `re.search(r"<([a-zA-Z][^>]*?)>", text)`: a match exists exactly
when some `<` is immediately followed by an ASCII letter with a `>` somewhere
later (the lazy `[^>]*?` then stops at the first such `>`). -/
def hasOpenTagMatch : List Char → Bool
  | [] => false
  | x :: rest => (decide (x = '<') && nextAlphaThenGt rest) || hasOpenTagMatch rest

/-- Models `BeautifulSoup(text, "lxml")` on markup-free input: lxml wraps
bare text having visible content in `html/body/p`; input without visible
content yields an empty document.  (Only this fragment of the library's
behaviour is needed: `is_html` reaches the parser fallback only for inputs
the quick angle-bracket tests rejected.) -/
def lxml_parse_plain (s : String) : Dom :=
  if pyNonBlank s && !s.data.contains '<' && !s.data.contains '>' then
    .elem "html" []
      (.elem "body" [] (.elem "p" [] (.text s .nil) .nil) .nil) .nil
  else .nil

/-- Models `bool(soup.find())`: does the document contain any element? -/
def soup_find_some : Dom → Bool
  | .nil => false
  | .text _ sib => soup_find_some sib
  | .elem _ _ _ _ => true

/-- Models `is_html` (src/app.py lines 60-68): quick angle-bracket tests,
then the parser fallback. -/
def is_html (text : String) : Bool :=
  if text = "" then false
  else if hasPairSub '<' '/' text.data || hasPairSub '/' '>' text.data
      || hasOpenTagMatch text.data then true
  else soup_find_some (lxml_parse_plain text)

/-! ### Example documents used in concrete statements -/

/-- The parse of `<p>Hello <b>world</b></p>` (lxml wraps fragments in
`html/body`). -/
def exDoc : Dom :=
  .elem "html" []
    (.elem "body" []
      (.elem "p" [] (.text "Hello " (.elem "b" [] (.text "world" .nil) .nil)) .nil)
      .nil)
    .nil

/-- A document whose head carries visible title text:
`<html><head><title>Hello</title></head><body><p>Hi</p></body></html>`. -/
def exDocHead : Dom :=
  .elem "html" []
    (.elem "head" [] (.elem "title" [] (.text "Hello" .nil) .nil)
      (.elem "body" [] (.elem "p" [] (.text "Hi" .nil) .nil) .nil))
    .nil

/-- A document already ending in a `[Words: 7]` marker paragraph. -/
def exDocMarked : Dom :=
  .elem "html" []
    (.elem "body" [] (.elem "p" [] (.text "[Words: 7]" .nil) .nil) .nil)
    .nil

/-- The size invariant of one batch, as the specification states it: the
total estimated payload does not exceed the ceiling, or the batch is a
singleton whose one item alone exceeds it. -/
def okBatch (b : List (String × String)) : Prop :=
  batchTotal b ≤ MAX_CHARS ∨ ∃ kv, b = [kv] ∧ MAX_CHARS < pairSize kv

/-! ### Decimal representation: injectivity of `Nat.repr` -/

theorem specDigits_eq_lt (n : Nat) (h : n < 10) : specDigits n = [Nat.digitChar n] := by
  rw [specDigits]
  exact if_pos h

theorem specDigits_eq_ge (n : Nat) (h : ¬ n < 10) :
    specDigits n = specDigits (n / 10) ++ [Nat.digitChar (n % 10)] := by
  conv_lhs => rw [specDigits]
  exact if_neg h

theorem digitChar_sub48 (n : Nat) (h : n < 10) : (Nat.digitChar n).toNat - 48 = n := by
  interval_cases n <;> decide

theorem toDigitsCore_eq_specDigits (f : Nat) :
    ∀ n acc, n < f → Nat.toDigitsCore 10 f n acc = specDigits n ++ acc := by
  induction f with
  | zero => intro n acc h; omega
  | succ f ih =>
    intro n acc hnf
    simp only [Nat.toDigitsCore]
    by_cases h10 : n / 10 = 0
    · have hn : n < 10 := (Nat.div_eq_zero_iff (by omega)).mp h10
      rw [if_pos h10, specDigits_eq_lt n hn, Nat.mod_eq_of_lt hn]
      rfl
    · have hge : 10 ≤ n := by
        by_contra hlt
        exact h10 (Nat.div_eq_of_lt (by omega))
      have hd : n / 10 < n := Nat.div_lt_self (by omega) (by omega)
      rw [if_neg h10, ih (n / 10) _ (by omega), specDigits_eq_ge n (by omega),
        List.append_assoc]
      rfl

theorem digitsValAcc_append (l1 : List Char) :
    ∀ l2 acc, digitsValAcc acc (l1 ++ l2) = digitsValAcc (digitsValAcc acc l1) l2 := by
  induction l1 with
  | nil => intro l2 acc; rfl
  | cons c rest ih => intro l2 acc; exact ih l2 (10 * acc + (c.toNat - 48))

theorem digitsValAcc_singleton (acc : Nat) (c : Char) :
    digitsValAcc acc [c] = 10 * acc + (c.toNat - 48) := rfl

theorem digitsValAcc_specDigits (n : Nat) :
    ∀ acc, digitsValAcc acc (specDigits n) = acc * 10 ^ (specDigits n).length + n := by
  induction n using specDigits.induct with
  | case1 n h =>
    intro acc
    rw [specDigits_eq_lt n h, digitsValAcc_singleton, digitChar_sub48 n h,
      List.length_singleton]
    ring
  | case2 n h ih =>
    intro acc
    rw [specDigits_eq_ge n h, digitsValAcc_append, ih acc,
      digitsValAcc_singleton, digitChar_sub48 (n % 10) (Nat.mod_lt n (by omega)),
      List.length_append, List.length_singleton]
    have hdm : 10 * (n / 10) + n % 10 = n := Nat.div_add_mod n 10
    have hx : acc * 10 ^ ((specDigits (n / 10)).length + 1) =
        10 * (acc * 10 ^ (specDigits (n / 10)).length) := by ring
    omega

theorem specDigits_inj {m n : Nat} (h : specDigits m = specDigits n) : m = n := by
  have hm := digitsValAcc_specDigits m 0
  have hn := digitsValAcc_specDigits n 0
  rw [h] at hm
  omega

theorem repr_eq_specDigits (n : Nat) : Nat.repr n = ⟨specDigits n⟩ := by
  show (Nat.toDigitsCore 10 (n + 1) n []).asString = _
  rw [toDigitsCore_eq_specDigits (n + 1) n [] (by omega), List.append_nil]
  rfl

theorem tid_data (n : Nat) : (tid n).data = 't' :: specDigits n := by
  rw [tid, repr_eq_specDigits, String.data_append]
  rfl

theorem tid_inj {a b : Nat} (h : tid a = tid b) : a = b := by
  have hd := congrArg String.data h
  rw [tid_data, tid_data] at hd
  exact specDigits_inj (List.cons.injEq _ _ _ _ ▸ hd).2

/-! ### Association-list lookup lemmas -/

theorem lookupS_original_replacements (m : List (String × NodeInfo)) (k : String) :
    lookupS (original_replacements m) k = (lookupNI m k).map NodeInfo.text := by
  induction m with
  | nil => rfl
  | cons p rest ih =>
    by_cases h : p.1 = k
    · simp [original_replacements, lookupS, lookupNI, h]
    · simp only [original_replacements, List.map_cons] at *
      rw [lookupS, lookupNI, if_neg h, if_neg h, ih]

theorem lookupNI_of_mem {m : List (String × NodeInfo)} {p : String × NodeInfo}
    (hnd : (m.map Prod.fst).Nodup) (hp : p ∈ m) : lookupNI m p.1 = some p.2 := by
  induction m with
  | nil => cases hp
  | cons q rest ih =>
    rw [List.map_cons, List.nodup_cons] at hnd
    rcases List.mem_cons.mp hp with rfl | hmem
    · rw [lookupNI, if_pos rfl]
    · have hne : q.1 ≠ p.1 := by
        intro he
        exact hnd.1 (he ▸ List.mem_map_of_mem Prod.fst hmem)
      rw [lookupNI, if_neg hne, ih hnd.2 hmem]

/-! ### Sequential-id lemmas -/

theorem mem_ids_from : ∀ k c x, x ∈ ids_from c k → ∃ j, x = tid j ∧ c < j ∧ j ≤ c + k := by
  intro k
  induction k with
  | zero => intro c x hx; cases hx
  | succ k ih =>
    intro c x hx
    rcases List.mem_cons.mp hx with rfl | hmem
    · exact ⟨c + 1, rfl, by omega, by omega⟩
    · obtain ⟨j, rfl, hj1, hj2⟩ := ih (c + 1) x hmem
      exact ⟨j, rfl, by omega, by omega⟩

theorem ids_from_nodup : ∀ k c, (ids_from c k).Nodup := by
  intro k
  induction k with
  | zero => intro c; exact List.nodup_nil
  | succ k ih =>
    intro c
    refine List.nodup_cons.mpr ⟨?_, ih (c + 1)⟩
    intro hmem
    obtain ⟨j, hj, hj1, _⟩ := mem_ids_from k (c + 1) (tid (c + 1)) hmem
    have := tid_inj hj
    omega

theorem seq_ids_map_fst : ∀ rs c, (seq_ids c rs).map Prod.fst = ids_from c rs.length := by
  intro rs
  induction rs with
  | nil => intro c; rfl
  | cons r rest ih => intro c; simp only [seq_ids, List.map_cons, ih, ids_from, List.length_cons]

theorem seq_ids_append : ∀ A B c,
    seq_ids c (A ++ B) = seq_ids c A ++ seq_ids (c + A.length) B := by
  intro A
  induction A with
  | nil => intro B c; rfl
  | cons r rest ih =>
    intro B c
    have h : c + 1 + rest.length = c + (rest.length + 1) := by omega
    show (tid (c + 1), r) :: seq_ids (c + 1) (rest ++ B) =
      (tid (c + 1), r) :: (seq_ids (c + 1) rest ++ seq_ids (c + (rest.length + 1)) B)
    rw [ih B (c + 1), h]

theorem snd_mem_seq_ids : ∀ rs c p, p ∈ seq_ids c rs → p.2 ∈ rs := by
  intro rs
  induction rs with
  | nil => intro c p hp; cases hp
  | cons r rest ih =>
    intro c p hp
    rcases List.mem_cons.mp hp with rfl | hmem
    · exact List.mem_cons_self _ _
    · exact List.mem_cons_of_mem _ (ih (c + 1) p hmem)

/-! ### Characterisation of the tokenizer -/

theorem leaf_records_length : ∀ d pname,
    (leaf_records_spec pname d).length = nonblank_leaf_count d := by
  intro d
  induction d with
  | nil => intro pname; rfl
  | text s sib ih =>
    intro pname
    by_cases h : pyNonBlank s
    · simp [leaf_records_spec, nonblank_leaf_count, h, ih]
      omega
    · simp [leaf_records_spec, nonblank_leaf_count, h, ih]
  | elem n a ch sib ih1 ih2 =>
    intro pname
    simp [leaf_records_spec, nonblank_leaf_count, ih1, ih2]

theorem tag_text_nodes_eq : ∀ d pname c m,
    tag_text_nodes pname d c m =
      (skeleton_with_ids c d, c + nonblank_leaf_count d,
        m ++ seq_ids c (leaf_records_spec pname d)) := by
  intro d
  induction d with
  | nil =>
    intro pname c m
    simp [tag_text_nodes, skeleton_with_ids, nonblank_leaf_count,
      leaf_records_spec, seq_ids]
  | text s sib ih =>
    intro pname c m
    by_cases h : pyNonBlank s
    · simp only [tag_text_nodes, if_pos h, ih, skeleton_with_ids,
        nonblank_leaf_count, leaf_records_spec, seq_ids, List.singleton_append,
        if_pos h, Prod.mk.injEq]
      refine ⟨trivial, by omega, ?_⟩
      simp [List.append_assoc]
    · simp only [tag_text_nodes, if_neg h, ih, skeleton_with_ids,
        nonblank_leaf_count, leaf_records_spec, seq_ids, if_neg h,
        List.nil_append, Prod.mk.injEq]
      exact ⟨trivial, by omega, trivial⟩
  | elem n a ch sib ih1 ih2 =>
    intro pname c m
    simp only [tag_text_nodes, ih1, ih2, skeleton_with_ids,
      nonblank_leaf_count, leaf_records_spec, Prod.mk.injEq]
    refine ⟨trivial, by omega, ?_⟩
    rw [seq_ids_append, leaf_records_length, List.append_assoc]

theorem process_first_body_flag : ∀ d c m,
    (process_first_body d c m).2.2.2 = (body_leaf_records_spec d).2 := by
  intro d
  induction d with
  | nil => intro c m; rfl
  | text s sib ih =>
    intro c m
    have h := ih c m
    rcases hsib : process_first_body sib c m with ⟨sib', c', m', f⟩
    rw [hsib] at h
    simp only at h
    simp only [process_first_body, hsib, body_leaf_records_spec]
    exact h
  | elem n a ch sib ih1 ih2 =>
    intro c m
    by_cases hb : n = "body"
    · rcases htn : tag_text_nodes n ch c m with ⟨ch', c', m'⟩
      simp [process_first_body, hb, htn, body_leaf_records_spec]
    · have h1 := ih1 c m
      rcases hch : process_first_body ch c m with ⟨ch', c', m', f⟩
      rcases hblr : body_leaf_records_spec ch with ⟨rs, f2⟩
      rw [hch, hblr] at h1
      simp only at h1
      subst h1
      cases f
      · have h2 := ih2 c m
        rcases hsib : process_first_body sib c m with ⟨sib', cs', ms', fs⟩
        rw [hsib] at h2
        simp only at h2
        simp only [process_first_body, if_neg hb, hch, body_leaf_records_spec,
          hblr, hsib]
        exact h2
      · simp only [process_first_body, if_neg hb, hch, body_leaf_records_spec,
          hblr]

theorem process_first_body_map : ∀ d c,
    (process_first_body d c []).2.2.1 = seq_ids c (body_leaf_records_spec d).1 := by
  intro d
  induction d with
  | nil => intro c; rfl
  | text s sib ih =>
    intro c
    have h := ih c
    rcases hsib : process_first_body sib c [] with ⟨sib', c', m', f⟩
    rw [hsib] at h
    simp only at h
    simp only [process_first_body, hsib, body_leaf_records_spec]
    exact h
  | elem n a ch sib ih1 ih2 =>
    intro c
    by_cases hb : n = "body"
    · simp only [process_first_body, if_pos hb, tag_text_nodes_eq,
        body_leaf_records_spec, if_pos hb, List.nil_append]
    · have hflag := process_first_body_flag ch c []
      rcases hch : process_first_body ch c [] with ⟨ch', c', m', f⟩
      rcases hblr : body_leaf_records_spec ch with ⟨rs, f2⟩
      rw [hch, hblr] at hflag
      simp only at hflag
      subst hflag
      cases f
      · have h2 := ih2 c
        rcases hsib : process_first_body sib c [] with ⟨sib', cs', ms', fs⟩
        rw [hsib] at h2
        simp only at h2
        simp only [process_first_body, if_neg hb, hch, body_leaf_records_spec,
          hblr, hsib]
        exact h2
      · have h1 := ih1 c
        rw [hch, hblr] at h1
        simp only at h1
        simp only [process_first_body, if_neg hb, hch, body_leaf_records_spec,
          hblr]
        exact h1

theorem extract_mapping_eq (doc : Dom) :
    (extract_text_nodes_as_mapping doc).2 = mapping_spec doc := by
  have hflag := process_first_body_flag (stripBad doc) 0 []
  have hmap := process_first_body_map (stripBad doc) 0
  rcases hp : process_first_body (stripBad doc) 0 [] with ⟨d', c', m', f⟩
  rw [hp] at hflag hmap
  simp only at hflag hmap
  rcases hblr : body_leaf_records_spec (stripBad doc) with ⟨rs, f2⟩
  rw [hblr] at hflag hmap
  simp only at hflag hmap
  subst hflag
  cases f
  · simp only [extract_text_nodes_as_mapping, hp, mapping_spec, hblr,
      tag_text_nodes_eq, List.nil_append]
  · simp only [extract_text_nodes_as_mapping, hp, mapping_spec, hblr]
    exact hmap

/-! ### Stripping script/style/noscript -/

theorem stripBad_no_bad : ∀ d, hasBadElem (stripBad d) = false := by
  intro d
  induction d with
  | nil => rfl
  | text s sib ih => simpa [stripBad, hasBadElem] using ih
  | elem n a ch sib ih1 ih2 =>
    by_cases h : isBadTag n
    · simpa [stripBad, h, hasBadElem] using ih2
    · simp [stripBad, h, hasBadElem, ih1, ih2]

theorem mem_leaf_records_textLeaves : ∀ d pname r,
    r ∈ leaf_records_spec pname d → r.text ∈ textLeaves d := by
  intro d
  induction d with
  | nil => intro pname r hr; cases hr
  | text s sib ih =>
    intro pname r hr
    by_cases h : pyNonBlank s
    · rw [leaf_records_spec, if_pos h, List.singleton_append] at hr
      rcases List.mem_cons.mp hr with rfl | hmem
      · exact List.mem_cons_self _ _
      · exact List.mem_cons_of_mem _ (ih pname r hmem)
    · rw [leaf_records_spec, if_neg h, List.nil_append] at hr
      exact List.mem_cons_of_mem _ (ih pname r hr)
  | elem n a ch sib ih1 ih2 =>
    intro pname r hr
    rw [leaf_records_spec] at hr
    rw [textLeaves]
    rcases List.mem_append.mp hr with hmem | hmem
    · exact List.mem_append.mpr (Or.inl (ih1 n r hmem))
    · exact List.mem_append.mpr (Or.inr (ih2 pname r hmem))

theorem mem_body_leaf_records_textLeaves : ∀ d r,
    r ∈ (body_leaf_records_spec d).1 → r.text ∈ textLeaves d := by
  intro d
  induction d with
  | nil => intro r hr; cases hr
  | text s sib ih =>
    intro r hr
    rw [body_leaf_records_spec] at hr
    exact List.mem_cons_of_mem _ (ih r hr)
  | elem n a ch sib ih1 ih2 =>
    intro r hr
    rw [body_leaf_records_spec] at hr
    rw [textLeaves]
    by_cases hb : n = "body"
    · rw [if_pos hb] at hr
      exact List.mem_append.mpr (Or.inl (mem_leaf_records_textLeaves ch n r hr))
    · rw [if_neg hb] at hr
      rcases hblr : body_leaf_records_spec ch with ⟨rs, f2⟩
      rw [hblr] at hr
      cases f2
      · simp only at hr
        exact List.mem_append.mpr (Or.inr (ih2 r hr))
      · simp only at hr
        have := ih1 r (by rw [hblr]; exact hr)
        exact List.mem_append.mpr (Or.inl this)

theorem extract_mapping_text_mem (doc : Dom) (p : String × NodeInfo)
    (hp : p ∈ (extract_text_nodes_as_mapping doc).2) :
    p.2.text ∈ textLeaves (stripBad doc) := by
  rw [extract_mapping_eq] at hp
  rw [mapping_spec] at hp
  rcases hblr : body_leaf_records_spec (stripBad doc) with ⟨rs, f2⟩
  rw [hblr] at hp
  cases f2
  · simp only at hp
    exact mem_leaf_records_textLeaves (stripBad doc) "[document]" p.2
      (snd_mem_seq_ids _ 0 p hp)
  · simp only at hp
    have := snd_mem_seq_ids rs 0 p hp
    exact mem_body_leaf_records_textLeaves (stripBad doc) p.2
      (by rw [hblr]; exact this)

/-! ### Reassembler lemmas -/

theorem lookupS_delAttr (a : List (String × String)) (k : String) :
    lookupS (delAttr a k) k = none := by
  induction a with
  | nil => rfl
  | cons p rest ih =>
    by_cases h : p.1 = k
    · rw [delAttr, if_pos h]; exact ih
    · rw [delAttr, if_neg h, lookupS, if_neg h]; exact ih

theorem hasHid_strip_hid : ∀ d, hasHidAttr (strip_hid_attrs d) = false := by
  intro d
  induction d with
  | nil => rfl
  | text s sib ih => simpa [strip_hid_attrs, hasHidAttr] using ih
  | elem n a ch sib ih1 ih2 =>
    by_cases h : (lookupS a "data-hid").isSome
    · simp [strip_hid_attrs, hasHidAttr, h, lookupS_delAttr, ih1, ih2]
    · have hnone : lookupS a "data-hid" = none := by
        cases hl : lookupS a "data-hid"
        · rfl
        · rw [hl] at h; simp at h
      simp [strip_hid_attrs, hasHidAttr, hnone, ih1, ih2]

theorem replace_eq_repl_spec : ∀ d repl,
    strip_hid_attrs (set_replacement_strings repl d) = repl_spec repl d := by
  intro d
  induction d with
  | nil => intro repl; rfl
  | text s sib ih =>
    intro repl
    simp only [set_replacement_strings, strip_hid_attrs, repl_spec, ih]
  | elem n a ch sib ih1 ih2 =>
    intro repl
    cases hhid : lookupS a "data-hid" with
    | none =>
      simp only [set_replacement_strings, hhid, strip_hid_attrs, repl_spec,
        Option.isSome_none, Bool.false_eq_true, if_false, ih1, ih2]
    | some hid =>
      cases hrep : lookupS repl hid with
      | none =>
        simp only [set_replacement_strings, hhid, hrep, strip_hid_attrs,
          repl_spec, Option.isSome_some, if_true, ih1, ih2]
      | some v =>
        simp only [set_replacement_strings, hhid, hrep, strip_hid_attrs,
          repl_spec, Option.isSome_some, if_true, ih2]

theorem replace_identity : ∀ d repl, hasHidAttr d = false →
    strip_hid_attrs (set_replacement_strings repl d) = d := by
  intro d
  induction d with
  | nil => intro repl h; rfl
  | text s sib ih =>
    intro repl h
    rw [hasHidAttr] at h
    simp only [set_replacement_strings, strip_hid_attrs, ih repl h]
  | elem n a ch sib ih1 ih2 =>
    intro repl h
    rw [hasHidAttr] at h
    simp only [Bool.or_eq_false_iff] at h
    obtain ⟨⟨ha, hch⟩, hsib⟩ := h
    have hnone : lookupS a "data-hid" = none := by
      cases hl : lookupS a "data-hid"
      · rfl
      · rw [hl] at ha; simp at ha
    simp only [set_replacement_strings, hnone, strip_hid_attrs,
      Option.isSome_none, Bool.false_eq_true, if_false, ih1 repl hch,
      ih2 repl hsib]

/-! ### Wrap-spec auxiliary lemmas -/

theorem wrap_first_body_flag : ∀ d,
    (wrap_first_body_spec d).2 = (body_leaf_records_spec d).2 := by
  intro d
  induction d with
  | nil => rfl
  | text s sib ih =>
    rcases hsib : wrap_first_body_spec sib with ⟨sib', f⟩
    rw [hsib] at ih
    simp only [wrap_first_body_spec, hsib, body_leaf_records_spec]
    exact ih
  | elem n a ch sib ih1 ih2 =>
    by_cases hb : n = "body"
    · simp [wrap_first_body_spec, hb, body_leaf_records_spec]
    · rcases hch : wrap_first_body_spec ch with ⟨ch', f⟩
      rcases hblr : body_leaf_records_spec ch with ⟨rs, f2⟩
      rw [hch, hblr] at ih1
      simp only at ih1
      subst ih1
      cases f
      · rcases hsib : wrap_first_body_spec sib with ⟨sib', fs⟩
        rw [hsib] at ih2
        simp only [wrap_first_body_spec, if_neg hb, hch, hsib,
          body_leaf_records_spec, hblr]
        exact ih2
      · simp only [wrap_first_body_spec, if_neg hb, hch,
          body_leaf_records_spec, hblr]

theorem visible_text_wrap : ∀ d,
    visible_text (wrap_spans_spec d) = visible_text d := by
  intro d
  induction d with
  | nil => rfl
  | text s sib ih =>
    by_cases h : pyNonBlank s
    · simp [wrap_spans_spec, h, visible_text, ih]
    · simp [wrap_spans_spec, h, visible_text, ih]
  | elem n a ch sib ih1 ih2 =>
    simp [wrap_spans_spec, visible_text, ih1, ih2]

theorem visible_text_wrap_body : ∀ d,
    visible_text ((wrap_first_body_spec d).1) = visible_text d := by
  intro d
  induction d with
  | nil => rfl
  | text s sib ih =>
    rcases hsib : wrap_first_body_spec sib with ⟨sib', f⟩
    rw [hsib] at ih
    simp only at ih
    simp only [wrap_first_body_spec, hsib, visible_text]
    rw [ih]
  | elem n a ch sib ih1 ih2 =>
    by_cases hb : n = "body"
    · simp only [wrap_first_body_spec, if_pos hb, visible_text,
        visible_text_wrap]
    · rcases hch : wrap_first_body_spec ch with ⟨ch', f⟩
      rw [hch] at ih1
      simp only at ih1
      cases f
      · rcases hsib : wrap_first_body_spec sib with ⟨sib', fs⟩
        rw [hsib] at ih2
        simp only at ih2
        simp only [wrap_first_body_spec, if_neg hb, hch, hsib, visible_text]
        rw [ih2]
      · simp only [wrap_first_body_spec, if_neg hb, hch, visible_text]
        rw [ih1]

theorem hasHid_stripBad : ∀ d, hasHidAttr d = false →
    hasHidAttr (stripBad d) = false := by
  intro d
  induction d with
  | nil => intro h; rfl
  | text s sib ih =>
    intro h
    rw [hasHidAttr] at h
    simpa [stripBad, hasHidAttr] using ih h
  | elem n a ch sib ih1 ih2 =>
    intro h
    rw [hasHidAttr] at h
    simp only [Bool.or_eq_false_iff] at h
    obtain ⟨⟨ha, hch⟩, hsib⟩ := h
    by_cases hb : isBadTag n
    · simpa [stripBad, hb, hasHidAttr] using ih2 hsib
    · simp [stripBad, hb, hasHidAttr, ha, ih1 hch, ih2 hsib]

theorem lookupS_single_hit (k v : String) : lookupS [(k, v)] k = some v := by
  simp [lookupS]

theorem delAttr_single (k v : String) : delAttr [(k, v)] k = [] := by
  simp [delAttr]

theorem option_isSome_false {α : Type} {x : Option α} (h : x.isSome = false) :
    x = none := by
  cases x
  · rfl
  · simp at h

theorem replace_skeleton : ∀ d pname c R, hasHidAttr d = false →
    (∀ p ∈ seq_ids c (leaf_records_spec pname d), lookupS R p.1 = some p.2.text) →
    strip_hid_attrs (set_replacement_strings R (skeleton_with_ids c d)) =
      wrap_spans_spec d := by
  intro d
  induction d with
  | nil => intro pname c R hno hlk; rfl
  | text s sib ih =>
    intro pname c R hno hlk
    rw [hasHidAttr] at hno
    by_cases h : pyNonBlank s
    · rw [leaf_records_spec, if_pos h, List.singleton_append] at hlk
      simp only [seq_ids] at hlk
      have hhead := hlk (tid (c + 1), NodeInfo.mk s (parent_tag_of pname))
        (List.mem_cons_self _ _)
      have hsib := ih pname (c + 1) R hno
        (fun p hp => hlk p (List.mem_cons_of_mem _ hp))
      simp only [skeleton_with_ids, if_pos h, set_replacement_strings,
        lookupS_single_hit, hhead, strip_hid_attrs, Option.isSome_some,
        if_true, delAttr_single, wrap_spans_spec, hsib]
    · rw [leaf_records_spec, if_neg h, List.nil_append] at hlk
      have hsib := ih pname c R hno hlk
      simp only [skeleton_with_ids, if_neg h, set_replacement_strings,
        strip_hid_attrs, wrap_spans_spec, hsib]
  | elem n a ch sib ih1 ih2 =>
    intro pname c R hno hlk
    rw [hasHidAttr] at hno
    simp only [Bool.or_eq_false_iff] at hno
    obtain ⟨⟨ha, hch⟩, hsib⟩ := hno
    have hn := option_isSome_false ha
    have h1 := ih1 n c R hch (fun p hp => hlk p (by
      rw [leaf_records_spec, seq_ids_append, leaf_records_length]
      exact List.mem_append.mpr (Or.inl hp)))
    have h2 := ih2 pname (c + nonblank_leaf_count ch) R hsib (fun p hp => hlk p (by
      rw [leaf_records_spec, seq_ids_append, leaf_records_length]
      exact List.mem_append.mpr (Or.inr hp)))
    simp only [skeleton_with_ids, set_replacement_strings, hn,
      strip_hid_attrs, Option.isSome_none, Bool.false_eq_true, if_false,
      h1, h2, wrap_spans_spec]

theorem replace_processed_body : ∀ d c R, hasHidAttr d = false →
    (∀ p ∈ (process_first_body d c []).2.2.1, lookupS R p.1 = some p.2.text) →
    strip_hid_attrs (set_replacement_strings R (process_first_body d c []).1) =
      (wrap_first_body_spec d).1 := by
  intro d
  induction d with
  | nil => intro c R hno hlk; rfl
  | text s sib ih =>
    intro c R hno hlk
    rw [hasHidAttr] at hno
    rcases hsib : process_first_body sib c [] with ⟨sib', c', m', f⟩
    have h := ih c R hno (fun p hp => hlk p (by
      simp only [process_first_body, hsib]
      rw [hsib] at hp
      exact hp))
    rw [hsib] at h
    simp only at h
    rcases hw : wrap_first_body_spec sib with ⟨sibw, fw⟩
    rw [hw] at h
    simp only at h
    simp only [process_first_body, hsib, set_replacement_strings,
      strip_hid_attrs, wrap_first_body_spec, hw, h]
  | elem n a ch sib ih1 ih2 =>
    intro c R hno hlk
    rw [hasHidAttr] at hno
    simp only [Bool.or_eq_false_iff] at hno
    obtain ⟨⟨ha, hch⟩, hsib⟩ := hno
    have hn := option_isSome_false ha
    by_cases hb : n = "body"
    · have hmap : (process_first_body (.elem n a ch sib) c []).2.2.1 =
          seq_ids c (leaf_records_spec n ch) := by
        simp only [process_first_body, if_pos hb, tag_text_nodes_eq,
          List.nil_append]
      rw [hmap] at hlk
      have h1 := replace_skeleton ch n c R hch hlk
      have h2 := replace_identity sib R hsib
      simp only [process_first_body, if_pos hb, tag_text_nodes_eq,
        set_replacement_strings, hn, strip_hid_attrs, Option.isSome_none,
        Bool.false_eq_true, if_false, wrap_first_body_spec, if_pos hb, h1, h2]
    · have hflag := process_first_body_flag ch c []
      have hwflag := wrap_first_body_flag ch
      rcases hchp : process_first_body ch c [] with ⟨ch', c', m', f⟩
      rcases hwch : wrap_first_body_spec ch with ⟨chw, fw⟩
      rcases hblr : body_leaf_records_spec ch with ⟨rs, f2⟩
      rw [hchp, hblr] at hflag
      rw [hwch, hblr] at hwflag
      simp only at hflag hwflag
      subst hflag
      subst hwflag
      cases fw
      · rcases hsibp : process_first_body sib c [] with ⟨sib', cs', ms', fs⟩
        have h2 := ih2 c R hsib (fun p hp => hlk p (by
          simp only [process_first_body, if_neg hb, hchp, hsibp]
          rw [hsibp] at hp
          exact hp))
        rw [hsibp] at h2
        simp only at h2
        rcases hwsib : wrap_first_body_spec sib with ⟨sibw, fsw⟩
        rw [hwsib] at h2
        simp only at h2
        have hid1 := replace_identity ch R hch
        simp only [process_first_body, if_neg hb, hchp, hsibp,
          set_replacement_strings, hn, strip_hid_attrs, Option.isSome_none,
          Bool.false_eq_true, if_false, wrap_first_body_spec, if_neg hb,
          hwch, hwsib, hid1, h2]
      · have h1 := ih1 c R hch (fun p hp => hlk p (by
          simp only [process_first_body, if_neg hb, hchp]
          rw [hchp] at hp
          exact hp))
        rw [hchp] at h1
        simp only at h1
        rw [hwch] at h1
        simp only at h1
        have h2 := replace_identity sib R hsib
        simp only [process_first_body, if_neg hb, hchp,
          set_replacement_strings, hn, strip_hid_attrs, Option.isSome_none,
          Bool.false_eq_true, if_false, wrap_first_body_spec, if_neg hb,
          hwch, h1, h2]

/-! ### Key uniqueness of the extracted mapping -/

theorem extract_keys_nodup (doc : Dom) :
    ((extract_text_nodes_as_mapping doc).2.map Prod.fst).Nodup := by
  rw [extract_mapping_eq]
  simp only [mapping_spec]
  rcases hblr : body_leaf_records_spec (stripBad doc) with ⟨rs, f⟩
  cases f
  · simp only [seq_ids_map_fst]
    exact ids_from_nodup _ 0
  · simp only [seq_ids_map_fst]
    exact ids_from_nodup _ 0

theorem extract_lookup_orig (doc : Dom) :
    ∀ p ∈ (extract_text_nodes_as_mapping doc).2,
      lookupS (original_replacements (extract_text_nodes_as_mapping doc).2) p.1 =
        some p.2.text := by
  intro p hp
  rw [lookupS_original_replacements,
    lookupNI_of_mem (extract_keys_nodup doc) hp]
  rfl

/-! ### Batcher lemmas -/

theorem batch_fold_join : ∀ (l : List (String × String)) bs cur acc,
    ((l.foldl batch_step (bs, cur, acc)).1).flatten ++
        (l.foldl batch_step (bs, cur, acc)).2.1 =
      bs.flatten ++ cur ++ l.map Prod.fst := by
  intro l
  induction l with
  | nil => intro bs cur acc; simp
  | cons kv rest ih =>
    intro bs cur acc
    rw [List.foldl_cons]
    by_cases hc : MAX_CHARS < acc + pairSize kv ∧ cur ≠ []
    · have hstep : batch_step (bs, cur, acc) kv =
          (bs ++ [cur], [kv.1], pairSize kv) := by
        simp only [batch_step, if_pos hc]
      rw [hstep, ih]
      simp [List.flatten_append, List.append_assoc]
    · have hstep : batch_step (bs, cur, acc) kv =
          (bs, cur ++ [kv.1], acc + pairSize kv) := by
        simp only [batch_step, if_neg hc]
      rw [hstep, ih]
      simp [List.append_assoc]

theorem batch_fold_nonempty : ∀ (l : List (String × String)) bs cur acc,
    (∀ b ∈ bs, b ≠ ([] : List String)) →
    ∀ b ∈ (l.foldl batch_step (bs, cur, acc)).1, b ≠ [] := by
  intro l
  induction l with
  | nil => intro bs cur acc h; exact h
  | cons kv rest ih =>
    intro bs cur acc h
    rw [List.foldl_cons]
    by_cases hc : MAX_CHARS < acc + pairSize kv ∧ cur ≠ []
    · have hstep : batch_step (bs, cur, acc) kv =
          (bs ++ [cur], [kv.1], pairSize kv) := by
        simp only [batch_step, if_pos hc]
      rw [hstep]
      refine ih _ _ _ ?_
      intro b hb
      rcases List.mem_append.mp hb with hb | hb
      · exact h b hb
      · rw [List.mem_singleton.mp hb]
        exact hc.2
    · have hstep : batch_step (bs, cur, acc) kv =
          (bs, cur ++ [kv.1], acc + pairSize kv) := by
        simp only [batch_step, if_neg hc]
      rw [hstep]
      exact ih _ _ _ h

theorem make_batches_join (m : List (String × String)) :
    (make_batches m).flatten = m.map Prod.fst := by
  have h := batch_fold_join m [] [] 0
  simp only [List.flatten_nil, List.nil_append] at h
  simp only [make_batches]
  by_cases hc : (m.foldl batch_step ([], [], 0)).2.1 = []
  · rw [if_pos hc]
    rw [hc, List.append_nil] at h
    exact h
  · rw [if_neg hc]
    rw [List.flatten_append]
    simpa using h

theorem make_batches_nonempty (m : List (String × String)) :
    ∀ b ∈ make_batches m, b ≠ [] := by
  intro b hb
  simp only [make_batches] at hb
  by_cases hc : (m.foldl batch_step ([], [], 0)).2.1 = []
  · rw [if_pos hc] at hb
    exact batch_fold_nonempty m [] [] 0 (by intro b hb; cases hb) b hb
  · rw [if_neg hc] at hb
    rcases List.mem_append.mp hb with hb | hb
    · exact batch_fold_nonempty m [] [] 0 (by intro b hb; cases hb) b hb
    · rw [List.mem_singleton.mp hb]
      exact hc

theorem batch_fold_kv_proj : ∀ (l : List (String × String)) bs cur acc,
    l.foldl batch_step (bs.map (List.map Prod.fst), cur.map Prod.fst, acc) =
      ((l.foldl batch_step_kv (bs, cur, acc)).1.map (List.map Prod.fst),
       (l.foldl batch_step_kv (bs, cur, acc)).2.1.map Prod.fst,
       (l.foldl batch_step_kv (bs, cur, acc)).2.2) := by
  intro l
  induction l with
  | nil => intro bs cur acc; rfl
  | cons kv rest ih =>
    intro bs cur acc
    rw [List.foldl_cons, List.foldl_cons]
    by_cases hc : MAX_CHARS < acc + pairSize kv ∧ cur ≠ []
    · have hmapne : cur.map Prod.fst ≠ [] := by
        intro he
        exact hc.2 (List.map_eq_nil_iff.mp he)
      have h1 : batch_step (bs.map (List.map Prod.fst), cur.map Prod.fst, acc) kv =
          ((bs ++ [cur]).map (List.map Prod.fst), [kv].map Prod.fst, pairSize kv) := by
        simp only [batch_step, if_pos (And.intro hc.1 hmapne), List.map_append]
        rfl
      have h2 : batch_step_kv (bs, cur, acc) kv = (bs ++ [cur], [kv], pairSize kv) := by
        simp only [batch_step_kv, if_pos hc]
      rw [h1, h2, ih]
    · have hmapne : ¬(MAX_CHARS < acc + pairSize kv ∧ cur.map Prod.fst ≠ []) := by
        intro hcontra
        exact hc ⟨hcontra.1, fun he => hcontra.2 (by rw [he]; rfl)⟩
      have h1 : batch_step (bs.map (List.map Prod.fst), cur.map Prod.fst, acc) kv =
          (bs.map (List.map Prod.fst), (cur ++ [kv]).map Prod.fst,
            acc + pairSize kv) := by
        simp only [batch_step, if_neg hmapne, List.map_append]
        rfl
      have h2 : batch_step_kv (bs, cur, acc) kv =
          (bs, cur ++ [kv], acc + pairSize kv) := by
        simp only [batch_step_kv, if_neg hc]
      rw [h1, h2, ih]

theorem make_batches_eq_kv (m : List (String × String)) :
    make_batches m = (make_batches_kv m).map (List.map Prod.fst) := by
  have h := batch_fold_kv_proj m [] [] 0
  simp only [List.map_nil] at h
  simp only [make_batches, make_batches_kv, h]
  by_cases hc : (m.foldl batch_step_kv ([], [], 0)).2.1 = []
  · rw [hc]
    simp
  · have hne : (m.foldl batch_step_kv ([], [], 0)).2.1.map Prod.fst ≠ [] := by
      intro he
      exact hc (List.map_eq_nil_iff.mp he)
    rw [if_neg hne, if_neg hc, List.map_append]
    simp

theorem batchTotal_append_single (b : List (String × String)) (kv : String × String) :
    batchTotal (b ++ [kv]) = batchTotal b + pairSize kv := by
  simp [batchTotal, List.map_append, List.sum_append]

theorem batch_fold_kv_sizes : ∀ (l : List (String × String)) bs cur acc,
    (∀ b ∈ bs, okBatch b) → acc = batchTotal cur → okBatch cur →
    (∀ b ∈ (l.foldl batch_step_kv (bs, cur, acc)).1, okBatch b) ∧
      (l.foldl batch_step_kv (bs, cur, acc)).2.2 =
        batchTotal (l.foldl batch_step_kv (bs, cur, acc)).2.1 ∧
      okBatch (l.foldl batch_step_kv (bs, cur, acc)).2.1 := by
  intro l
  induction l with
  | nil => intro bs cur acc h1 h2 h3; exact ⟨h1, h2, h3⟩
  | cons kv rest ih =>
    intro bs cur acc h1 h2 h3
    rw [List.foldl_cons]
    by_cases hc : MAX_CHARS < acc + pairSize kv ∧ cur ≠ []
    · have hstep : batch_step_kv (bs, cur, acc) kv = (bs ++ [cur], [kv], pairSize kv) := by
        simp only [batch_step_kv, if_pos hc]
      rw [hstep]
      refine ih _ _ _ ?_ ?_ ?_
      · intro b hb
        rcases List.mem_append.mp hb with hb | hb
        · exact h1 b hb
        · rw [List.mem_singleton.mp hb]
          exact h3
      · simp [batchTotal, pairSize]
      · by_cases hsz : pairSize kv ≤ MAX_CHARS
        · left
          have hbt : batchTotal [kv] = pairSize kv := by simp [batchTotal]
          omega
        · right
          exact ⟨kv, rfl, by omega⟩
    · have hstep : batch_step_kv (bs, cur, acc) kv =
          (bs, cur ++ [kv], acc + pairSize kv) := by
        simp only [batch_step_kv, if_neg hc]
      rw [hstep]
      rcases Decidable.not_and_iff_or_not.mp hc with hle | hemp
      · refine ih _ _ _ h1 ?_ ?_
        · rw [batchTotal_append_single, h2]
        · left
          rw [batchTotal_append_single, ← h2]
          omega
      · have hcur : cur = [] := by
          by_contra hne
          exact hemp hne
        subst hcur
        refine ih _ _ _ h1 ?_ ?_
        · simp only [batchTotal, List.map_nil, List.sum_nil] at h2
          rw [batchTotal_append_single, h2]
          simp [batchTotal]
        · by_cases hsz : pairSize kv ≤ MAX_CHARS
          · left
            have hbt : batchTotal ([] ++ [kv]) = pairSize kv := by
              simp [batchTotal]
            omega
          · right
            exact ⟨kv, rfl, by omega⟩

theorem make_batches_kv_sizes (m : List (String × String)) :
    ∀ b ∈ make_batches_kv m, okBatch b := by
  intro b hb
  have h := batch_fold_kv_sizes m [] [] 0 (by intro b hb; cases hb)
    (by simp [batchTotal]) (by left; simp [batchTotal])
  simp only [make_batches_kv] at hb
  by_cases hc : (m.foldl batch_step_kv ([], [], 0)).2.1 = []
  · rw [if_pos hc] at hb
    exact h.1 b hb
  · rw [if_neg hc] at hb
    rcases List.mem_append.mp hb with hb | hb
    · exact h.1 b hb
    · rw [List.mem_singleton.mp hb]
      exact h.2.2

theorem batch_fold_kv_mem : ∀ (l : List (String × String)) bs cur acc
    (P : String × String → Prop),
    (∀ b ∈ bs, ∀ x ∈ b, P x) → (∀ x ∈ cur, P x) → (∀ x ∈ l, P x) →
    (∀ b ∈ (l.foldl batch_step_kv (bs, cur, acc)).1, ∀ x ∈ b, P x) ∧
      (∀ x ∈ (l.foldl batch_step_kv (bs, cur, acc)).2.1, P x) := by
  intro l
  induction l with
  | nil => intro bs cur acc P h1 h2 h3; exact ⟨h1, h2⟩
  | cons kv rest ih =>
    intro bs cur acc P h1 h2 h3
    rw [List.foldl_cons]
    by_cases hc : MAX_CHARS < acc + pairSize kv ∧ cur ≠ []
    · have hstep : batch_step_kv (bs, cur, acc) kv = (bs ++ [cur], [kv], pairSize kv) := by
        simp only [batch_step_kv, if_pos hc]
      rw [hstep]
      refine ih _ _ _ P ?_ ?_ ?_
      · intro b hb
        rcases List.mem_append.mp hb with hb | hb
        · exact h1 b hb
        · rw [List.mem_singleton.mp hb]
          exact h2
      · intro x hx
        rw [List.mem_singleton.mp hx]
        exact h3 kv (List.mem_cons_self _ _)
      · intro x hx
        exact h3 x (List.mem_cons_of_mem _ hx)
    · have hstep : batch_step_kv (bs, cur, acc) kv =
          (bs, cur ++ [kv], acc + pairSize kv) := by
        simp only [batch_step_kv, if_neg hc]
      rw [hstep]
      refine ih _ _ _ P h1 ?_ ?_
      · intro x hx
        rcases List.mem_append.mp hx with hx | hx
        · exact h2 x hx
        · rw [List.mem_singleton.mp hx]
          exact h3 kv (List.mem_cons_self _ _)
      · intro x hx
        exact h3 x (List.mem_cons_of_mem _ hx)

theorem make_batches_kv_mem (m : List (String × String)) :
    ∀ b ∈ make_batches_kv m, ∀ kv ∈ b, kv ∈ m := by
  intro b hb
  have h := batch_fold_kv_mem m [] [] 0 (fun kv => kv ∈ m)
    (by intro b hb; cases hb) (by intro x hx; cases hx) (by intro x hx; exact hx)
  simp only [make_batches_kv] at hb
  by_cases hc : (m.foldl batch_step_kv ([], [], 0)).2.1 = []
  · rw [if_pos hc] at hb
    exact h.1 b hb
  · rw [if_neg hc] at hb
    rcases List.mem_append.mp hb with hb | hb
    · exact h.1 b hb
    · rw [List.mem_singleton.mp hb]
      exact h.2

theorem lookupS_of_mem_nodup {m : List (String × String)} {kv : String × String}
    (hnd : (m.map Prod.fst).Nodup) (hkv : kv ∈ m) : lookupS m kv.1 = some kv.2 := by
  induction m with
  | nil => cases hkv
  | cons q rest ih =>
    rw [List.map_cons, List.nodup_cons] at hnd
    rcases List.mem_cons.mp hkv with rfl | hmem
    · rw [lookupS, if_pos rfl]
    · have hne : q.1 ≠ kv.1 := by
        intro he
        exact hnd.1 (he ▸ List.mem_map_of_mem Prod.fst hmem)
      rw [lookupS, if_neg hne, ih hnd.2 hmem]

theorem estSize_eq_batchTotal (m : List (String × String)) :
    ∀ b, (∀ kv ∈ b, lookupS m kv.1 = some kv.2) →
      estSize m (b.map Prod.fst) = batchTotal b := by
  intro b
  induction b with
  | nil => intro h; rfl
  | cons kv rest ih =>
    intro h
    have hkv := h kv (List.mem_cons_self _ _)
    simp only [estSize, batchTotal, List.map_cons, List.sum_cons] at *
    rw [ih (fun x hx => h x (List.mem_cons_of_mem _ hx))]
    simp only [itemSize, pairSize, textOf, hkv, Option.getD_some]

/-! ### Words-marker lemmas -/

theorem count_appendChild : ∀ d p t,
    count_marker_leaves t (appendChild d p) =
      count_marker_leaves t d + count_marker_leaves t p := by
  intro d
  induction d with
  | nil => intro p t; simp [appendChild, count_marker_leaves]
  | text s sib ih =>
    intro p t
    simp only [appendChild, count_marker_leaves, ih]
    omega
  | elem n a ch sib ih1 ih2 =>
    intro p t
    simp only [appendChild, count_marker_leaves, ih2]
    omega

theorem count_markerPara (n : Nat) :
    count_marker_leaves (marker_text n) (markerPara n) = 1 := by
  simp [markerPara, count_marker_leaves]

theorem append_first_body_found : ∀ d p t,
    ((append_to_first_body p d).2 = true →
      count_marker_leaves t (append_to_first_body p d).1 =
        count_marker_leaves t d + count_marker_leaves t p) ∧
    ((append_to_first_body p d).2 = false → (append_to_first_body p d).1 = d) := by
  intro d
  induction d with
  | nil =>
    intro p t
    constructor
    · intro h
      simp [append_to_first_body] at h
    · intro _
      rfl
  | text s sib ih =>
    intro p t
    rcases hsib : append_to_first_body p sib with ⟨sib', f⟩
    have h := ih p t
    rw [hsib] at h
    simp only at h
    constructor
    · intro hf
      simp only [append_to_first_body, hsib] at hf ⊢
      simp only [count_marker_leaves, h.1 hf]
      omega
    · intro hf
      simp only [append_to_first_body, hsib] at hf ⊢
      rw [h.2 hf]
  | elem n a ch sib ih1 ih2 =>
    intro p t
    by_cases hb : n = "body"
    · constructor
      · intro _
        simp only [append_to_first_body, if_pos hb, count_marker_leaves,
          count_appendChild]
        omega
      · intro hf
        simp only [append_to_first_body, if_pos hb] at hf
        cases hf
    · rcases hch : append_to_first_body p ch with ⟨ch', fc⟩
      have h1 := ih1 p t
      rw [hch] at h1
      simp only at h1
      cases fc
      · rcases hsib : append_to_first_body p sib with ⟨sib', fs⟩
        have h2 := ih2 p t
        rw [hsib] at h2
        simp only at h2
        constructor
        · intro hf
          simp only [append_to_first_body, if_neg hb, hch, hsib] at hf ⊢
          simp only [count_marker_leaves, h2.1 hf]
          omega
        · intro hf
          simp only [append_to_first_body, if_neg hb, hch, hsib] at hf ⊢
          rw [h2.2 hf]
      · constructor
        · intro _
          simp only [append_to_first_body, if_neg hb, hch,
            count_marker_leaves, h1.1 rfl]
          omega
        · intro hf
          simp only [append_to_first_body, if_neg hb, hch] at hf
          cases hf

/-! ### Sanity-fill lemmas -/

theorem jget_some_hasKey : ∀ p k v, jget p k = some v → jHasKey p k = true := by
  intro p
  induction p with
  | objCons k' v' tl ihv ih =>
    intro k v h
    rw [jget] at h
    rw [jHasKey]
    by_cases he : k' = k
    · rw [if_pos he]
    · rw [if_neg he] at h
      rw [if_neg he]
      exact ih k v h
  | null => intro k v h; cases h
  | bool b => intro k v h; cases h
  | num n => intro k v h; cases h
  | str s => intro k v h; cases h
  | arrNil => intro k v h; cases h
  | arrCons hd tl ih1 ih2 => intro k v h; cases h
  | objNil => intro k v h; cases h

theorem jget_none_of_hasKey_false : ∀ p k, jHasKey p k = false → jget p k = none := by
  intro p k h
  cases hg : jget p k with
  | none => rfl
  | some v => rw [jget_some_hasKey p k v hg] at h; cases h

theorem jset_chain : ∀ p k v, isObjChain p = true → isObjChain (jset p k v) = true := by
  intro p
  induction p with
  | objCons k' v' tl ihv ih =>
    intro k v h
    rw [isObjChain] at h
    rw [jset]
    by_cases he : k' = k
    · rw [if_pos he, isObjChain]
      exact h
    · rw [if_neg he, isObjChain]
      exact ih k v h
  | objNil => intro k v h; rfl
  | null => intro k v h; cases h
  | bool b => intro k v h; cases h
  | num n => intro k v h; cases h
  | str s => intro k v h; cases h
  | arrNil => intro k v h; cases h
  | arrCons hd tl ih1 ih2 => intro k v h; cases h

theorem jget_jset_self : ∀ p k v, isObjChain p = true →
    jget (jset p k v) k = some v := by
  intro p
  induction p with
  | objCons k' v' tl ihv ih =>
    intro k v h
    rw [isObjChain] at h
    rw [jset]
    by_cases he : k' = k
    · rw [if_pos he, jget, if_pos rfl]
    · rw [if_neg he, jget, if_neg he]
      exact ih k v h
  | objNil => intro k v _; rw [jset, jget, if_pos rfl]
  | null => intro k v h; cases h
  | bool b => intro k v h; cases h
  | num n => intro k v h; cases h
  | str s => intro k v h; cases h
  | arrNil => intro k v h; cases h
  | arrCons hd tl ih1 ih2 => intro k v h; cases h

theorem jget_jset_other : ∀ p k v k2, k ≠ k2 → jget (jset p k v) k2 = jget p k2 := by
  intro p
  induction p with
  | objCons k' v' tl ihv ih =>
    intro k v k2 hne
    rw [jset]
    by_cases he : k' = k
    · rw [if_pos he, jget, jget]
      have h2 : ¬(k = k2) := hne
      have h3 : ¬(k' = k2) := by rw [he]; exact h2
      rw [if_neg h2, if_neg h3]
    · rw [if_neg he, jget, jget]
      by_cases h4 : k' = k2
      · rw [if_pos h4, if_pos h4]
      · rw [if_neg h4, if_neg h4]
        exact ih k v k2 hne
  | objNil =>
    intro k v k2 hne
    show jget (Json.objCons k v Json.objNil) k2 = none
    rw [jget, if_neg hne]
    rfl
  | null => intro k v k2 _; rfl
  | bool b => intro k v k2 _; rfl
  | num n => intro k v k2 _; rfl
  | str s => intro k v k2 _; rfl
  | arrNil => intro k v k2 _; rfl
  | arrCons hd tl ih1 ih2 => intro k v k2 _; rfl

theorem jHasKey_jset_other : ∀ p k v k2, k ≠ k2 →
    jHasKey (jset p k v) k2 = jHasKey p k2 := by
  intro p
  induction p with
  | objCons k' v' tl ihv ih =>
    intro k v k2 hne
    rw [jset]
    by_cases he : k' = k
    · rw [if_pos he, jHasKey, jHasKey]
      have h2 : ¬(k = k2) := hne
      have h3 : ¬(k' = k2) := by rw [he]; exact h2
      rw [if_neg h2, if_neg h3]
    · rw [if_neg he, jHasKey, jHasKey]
      by_cases h4 : k' = k2
      · rw [if_pos h4, if_pos h4]
      · rw [if_neg h4, if_neg h4]
        exact ih k v k2 hne
  | objNil =>
    intro k v k2 hne
    show jHasKey (Json.objCons k v Json.objNil) k2 = false
    rw [jHasKey, if_neg hne]
    rfl
  | null => intro k v k2 _; rfl
  | bool b => intro k v k2 _; rfl
  | num n => intro k v k2 _; rfl
  | str s => intro k v k2 _; rfl
  | arrNil => intro k v k2 _; rfl
  | arrCons hd tl ih1 ih2 => intro k v k2 _; rfl

theorem sanity_fill_chain : ∀ keys sub p, isObjChain p = true →
    isObjChain (sanity_fill keys sub p) = true := by
  intro keys
  induction keys with
  | nil => intro sub p h; exact h
  | cons k0 rest ih =>
    intro sub p h
    simp only [sanity_fill, List.foldl_cons]
    by_cases hk : jHasKey p k0
    · rw [if_pos hk]
      exact ih sub p h
    · rw [if_neg hk]
      exact ih sub _ (jset_chain p k0 _ h)

theorem sanity_fill_mono : ∀ keys sub p k v, isObjChain p = true →
    jget p k = some v → jget (sanity_fill keys sub p) k = some v := by
  intro keys
  induction keys with
  | nil => intro sub p k v _ hg; exact hg
  | cons k0 rest ih =>
    intro sub p k v hc hg
    simp only [sanity_fill, List.foldl_cons]
    by_cases hk : jHasKey p k0
    · rw [if_pos hk]
      exact ih sub p k v hc hg
    · rw [if_neg hk]
      have hne : k0 ≠ k := by
        intro he
        rw [he] at hk
        exact hk (jget_some_hasKey p k v hg)
      refine ih sub _ k v (jset_chain p k0 _ hc) ?_
      rw [jget_jset_other p k0 _ k hne]
      exact hg

theorem sanity_fill_fills : ∀ keys sub p k, isObjChain p = true → k ∈ keys →
    jHasKey p k = false →
    jget (sanity_fill keys sub p) k = some (Json.str (subMapGet sub k)) := by
  intro keys
  induction keys with
  | nil => intro sub p k _ hk _; cases hk
  | cons k0 rest ih =>
    intro sub p k hc hmem hk
    simp only [sanity_fill, List.foldl_cons]
    by_cases hk0 : jHasKey p k0
    · rw [if_pos hk0]
      have hne : k ≠ k0 := by
        intro he
        rw [he] at hk
        rw [hk] at hk0
        cases hk0
      rcases List.mem_cons.mp hmem with he | hmem2
      · exact absurd he hne
      · exact ih sub p k hc hmem2 hk
    · rw [if_neg hk0]
      by_cases he : k0 = k
      · subst he
        exact sanity_fill_mono rest sub _ k0 _ (jset_chain p k0 _ hc)
          (jget_jset_self p k0 _ hc)
      · rcases List.mem_cons.mp hmem with he2 | hmem2
        · exact absurd he2 (fun hx => he hx.symm)
        · refine ih sub _ k (jset_chain p k0 _ hc) hmem2 ?_
          rw [jHasKey_jset_other p k0 _ k he]
          exact hk

theorem lookupS_map_self : ∀ (keys : List String) (f : String → String) k,
    k ∈ keys → lookupS (keys.map fun k2 => (k2, f k2)) k = some (f k) := by
  intro keys
  induction keys with
  | nil => intro f k hk; cases hk
  | cons k0 rest ih =>
    intro f k hk
    rw [List.map_cons]
    by_cases he : k0 = k
    · subst he
      rw [lookupS, if_pos rfl]
    · rw [lookupS, if_neg he]
      rcases List.mem_cons.mp hk with he2 | hmem
      · exact absurd he2.symm he
      · exact ih f k hmem

/-! ### `is_html` lemmas -/

theorem hasPairSub_mem (a b : Char) : ∀ l,
    hasPairSub a b l = true → a ∈ l ∧ b ∈ l := by
  intro l
  induction l with
  | nil =>
    intro h
    have hr : hasPairSub a b [] = false := rfl
    rw [hr] at h
    cases h
  | cons x rest ih =>
    cases rest with
    | nil =>
      intro h
      have hr : hasPairSub a b [x] = false := rfl
      rw [hr] at h
      cases h
    | cons y rest2 =>
      intro h
      rw [hasPairSub, Bool.or_eq_true] at h
      rcases h with h | h
      · rw [Bool.and_eq_true] at h
        have hx : x = a := by
          have := h.1
          simpa using this
        have hy : y = b := by
          have := h.2
          simpa using this
        subst hx
        subst hy
        exact ⟨List.mem_cons_self _ _,
          List.mem_cons_of_mem _ (List.mem_cons_self _ _)⟩
      · obtain ⟨h1, h2⟩ := ih h
        exact ⟨List.mem_cons_of_mem _ h1, List.mem_cons_of_mem _ h2⟩

theorem hasOpenTagMatch_mem : ∀ l, hasOpenTagMatch l = true → '<' ∈ l := by
  intro l
  induction l with
  | nil =>
    intro h
    have hr : hasOpenTagMatch [] = false := rfl
    rw [hr] at h
    cases h
  | cons x rest ih =>
    intro h
    rw [hasOpenTagMatch, Bool.or_eq_true] at h
    rcases h with h | h
    · rw [Bool.and_eq_true] at h
      have hx : x = '<' := of_decide_eq_true h.1
      subst hx
      exact List.mem_cons_self _ _
    · exact List.mem_cons_of_mem _ (ih h)

theorem contains_false_of_not_mem {c : Char} {l : List Char} (h : c ∉ l) :
    l.contains c = false := by
  cases hh : l.contains c
  · rfl
  · exact absurd (List.mem_of_elem_eq_true hh) h

/-! ### Claim theorems -/

/-- Claim C2 (counterexample): `append_words_marker_to_html` applied to a
document that already ends with the marker paragraph `[Words: 7]` appends a
second marker paragraph — the output contains two `[Words: 7]` leaves, so
the operation is not idempotent and no trailing-marker check exists. -/
theorem c2_counterexample :
    append_words_marker_to_html exDocMarked 7 =
      Dom.elem "html" []
        (Dom.elem "body" []
          (Dom.elem "p" [] (Dom.text "[Words: 7]" Dom.nil)
            (Dom.elem "p" [] (Dom.text "[Words: 7]" Dom.nil) Dom.nil))
          Dom.nil) Dom.nil ∧
    count_marker_leaves (marker_text 7) (append_words_marker_to_html exDocMarked 7) = 2 := by
  constructor
  · decide
  · decide

/-- Claim C2 (amended): `append_words_marker_to_html` appends the marker
paragraph unconditionally — there is no trailing-marker regex check — so the
number of `[Words: n]` marker leaves always grows by exactly one, also when
the input already ends with such a marker.  (In the pipeline the function is
invoked at most once per processed document.) -/
theorem c2_marker_append_amended (doc : Dom) (n : Nat) :
    count_marker_leaves (marker_text n) (append_words_marker_to_html doc n) =
      count_marker_leaves (marker_text n) doc + 1 := by
  rcases happ : append_to_first_body (markerPara n) doc with ⟨d', f⟩
  have h := append_first_body_found doc (markerPara n) (marker_text n)
  rw [happ] at h
  simp only at h
  cases f
  · simp only [append_words_marker_to_html, happ]
    rw [count_appendChild, count_markerPara]
  · simp only [append_words_marker_to_html, happ]
    rw [h.1 rfl, count_markerPara]

/-- Claim C1 (counterexample): tokenizing the parse of
`<p>Hello <b>world</b></p>` and reassembling with edits `"Hi "`/`"earth"`
does not yield `<p>Hi <b>earth</b></p>` — each edited text remains wrapped in
an attribute-less `<span>` element that the claim says must not appear, so
extra elements are introduced even though only text was replaced. -/
theorem c1_counterexample :
    replace_text_nodes_from_mapping (extract_text_nodes_as_mapping exDoc).1
        [("t1", "Hi "), ("t2", "earth")] =
      Dom.elem "html" []
        (Dom.elem "body" []
          (Dom.elem "p" []
            (Dom.elem "span" [] (Dom.text "Hi " Dom.nil)
              (Dom.elem "b" []
                (Dom.elem "span" [] (Dom.text "earth" Dom.nil) Dom.nil)
                Dom.nil))
            Dom.nil)
          Dom.nil)
        Dom.nil ∧
    replace_text_nodes_from_mapping (extract_text_nodes_as_mapping exDoc).1
        [("t1", "Hi "), ("t2", "earth")] ≠
      Dom.elem "html" []
        (Dom.elem "body" []
          (Dom.elem "p" []
            (Dom.text "Hi " (Dom.elem "b" [] (Dom.text "earth" Dom.nil) Dom.nil))
            Dom.nil)
          Dom.nil)
        Dom.nil := by
  constructor
  · decide
  · decide

/-- Claim C1 (amended): for every parsed document without pre-existing
`data-hid` attributes, tokenizing and reassembling with the original text of
every id preserves the visible text exactly and preserves the original tag
nesting, except that each tokenized text leaf remains wrapped in an
attribute-less `span` element (inside the first body element when one
exists, otherwise across the whole document) — script/style/noscript content
stripped by the tokenizer stays removed. -/
theorem c1_roundtrip_amended (doc : Dom) (hhid : hasHidAttr doc = false) :
    replace_text_nodes_from_mapping (extract_text_nodes_as_mapping doc).1
        (original_replacements (extract_text_nodes_as_mapping doc).2) =
      roundtrip_spec doc ∧
    visible_text (replace_text_nodes_from_mapping
        (extract_text_nodes_as_mapping doc).1
        (original_replacements (extract_text_nodes_as_mapping doc).2)) =
      visible_text (stripBad doc) := by
  have hstr := hasHid_stripBad doc hhid
  have hlk := extract_lookup_orig doc
  have hflag := process_first_body_flag (stripBad doc) 0 []
  have hwflag := wrap_first_body_flag (stripBad doc)
  rcases hp : process_first_body (stripBad doc) 0 [] with ⟨d', c', m', f⟩
  rw [hp] at hflag
  simp only at hflag
  rcases hblr : body_leaf_records_spec (stripBad doc) with ⟨rs, f2⟩
  rw [hblr] at hflag hwflag
  simp only at hflag hwflag
  subst hflag
  rcases hw : wrap_first_body_spec (stripBad doc) with ⟨w, fw⟩
  rw [hw] at hwflag
  simp only at hwflag
  subst hwflag
  cases fw
  · -- no body element: the whole document is processed
    have hmain : replace_text_nodes_from_mapping
        (extract_text_nodes_as_mapping doc).1
        (original_replacements (extract_text_nodes_as_mapping doc).2) =
        wrap_spans_spec (stripBad doc) := by
      simp only [extract_text_nodes_as_mapping, hp, tag_text_nodes_eq,
        List.nil_append] at hlk ⊢
      rw [replace_text_nodes_from_mapping]
      exact replace_skeleton (stripBad doc) "[document]" 0 _ hstr hlk
    refine ⟨?_, ?_⟩
    · rw [hmain, roundtrip_spec]
      rw [hw]
    · rw [hmain, visible_text_wrap]
  · -- body element found
    have hmain : replace_text_nodes_from_mapping
        (extract_text_nodes_as_mapping doc).1
        (original_replacements (extract_text_nodes_as_mapping doc).2) =
        (wrap_first_body_spec (stripBad doc)).1 := by
      simp only [extract_text_nodes_as_mapping, hp] at hlk ⊢
      rw [replace_text_nodes_from_mapping]
      have := replace_processed_body (stripBad doc) 0
        (original_replacements m') hstr (by rw [hp]; exact hlk)
      rw [hp] at this
      exact this
    refine ⟨?_, ?_⟩
    · rw [hmain, roundtrip_spec]
      rw [hw]
    · rw [hmain, visible_text_wrap_body]

/-- Claim C1 (witness): the amended round-trip theorem instantiated at the
parse of `<p>Hello <b>world</b></p>`. -/
theorem c1_roundtrip_amended_witness :
    replace_text_nodes_from_mapping (extract_text_nodes_as_mapping exDoc).1
        (original_replacements (extract_text_nodes_as_mapping exDoc).2) =
      roundtrip_spec exDoc ∧
    visible_text (replace_text_nodes_from_mapping
        (extract_text_nodes_as_mapping exDoc).1
        (original_replacements (extract_text_nodes_as_mapping exDoc).2)) =
      visible_text (stripBad exDoc) :=
  c1_roundtrip_amended exDoc (by decide)

/-- Claim C3: for every batch, every requested id absent from the model's
parsed JSON-object response is filled with the original unedited text (the
batch never fails for a missing key), the output map covers exactly the
requested ids in order, and every present value is coerced with `str`. -/
theorem c3_missing_key_fallback (batch_keys : List String)
    (sub_map : List (String × String)) (parsed : Json) (k orig : String)
    (hobj : isObjChain parsed = true) (hk : k ∈ batch_keys) :
    ((merge_batch_output batch_keys sub_map parsed).map Prod.fst = batch_keys) ∧
    (jHasKey parsed k = false → lookupS sub_map k = some orig →
      lookupS (merge_batch_output batch_keys sub_map parsed) k = some orig) ∧
    (∀ v, jget parsed k = some v →
      lookupS (merge_batch_output batch_keys sub_map parsed) k = some (pyStr v)) := by
  refine ⟨?_, ?_, ?_⟩
  · simp [merge_batch_output, List.map_map]
    exact List.map_id batch_keys
  · intro habs hsub
    rw [merge_batch_output]
    rw [lookupS_map_self batch_keys _ k hk]
    rw [sanity_fill_fills batch_keys sub_map parsed k hobj hk habs]
    rw [Option.getD_some, pyStr, subMapGet, hsub, Option.getD_some]
  · intro v hv
    rw [merge_batch_output]
    rw [lookupS_map_self batch_keys _ k hk]
    rw [sanity_fill_mono batch_keys sub_map parsed k v hobj hv, Option.getD_some]

/-- Claim C3 (witness): a batch requesting `t1, t2` where the model returned
only `t1` keeps `t2` as its original source text. -/
theorem c3_missing_key_fallback_witness :
    lookupS (merge_batch_output ["t1", "t2"] [("t1", "origA"), ("t2", "origB")]
      (Json.objCons "t1" (Json.str "hi") Json.objNil)) "t2" = some "origB" :=
  (c3_missing_key_fallback ["t1", "t2"] [("t1", "origA"), ("t2", "origB")]
      (Json.objCons "t1" (Json.str "hi") Json.objNil) "t2" "origB" (by decide)
      (by decide)).2.1 (by decide) (by decide)

/-- Claim C4 (counterexample): for the response `a {"x": 1} b {"y": 2}` the
greedy brace extraction spans from the first opening to the last closing
brace, so the recovered text is not the first `\x7b...\x7d` span and fails to
parse; the batch then fails with a JSON decode error that does not name the
batch index — contrary to the claim, which predicts either a successful
parse of the first span or an error naming the batch index. -/
theorem c4_counterexample :
    safe_json_loads_in_batch 3 "a \x7b\"x\": 1\x7d b \x7b\"y\": 2\x7d" =
      Except.error GatewayError.jsonDecodeError ∧
    Except.error GatewayError.jsonDecodeError ≠
      (Except.ok (Json.objCons "x" (Json.num 1) Json.objNil) :
        Except GatewayError Json) ∧
    GatewayError.jsonDecodeError ≠ GatewayError.notJsonInBatch 3 := by
  refine ⟨?_, ?_, ?_⟩
  · rfl
  · intro h
    exact Except.noConfusion h
  · intro h
    exact GatewayError.noConfusion h

/-- Claim C4 (amended): the gateway first parses the response as JSON; if
direct parsing fails it recovers by extracting the greedy span from the
first `\x7b` to the last `\x7d` and parsing that (so prose around a single
JSON object, e.g. `Sure! ...`, still parses); when no such span exists the
batch fails with an error naming the batch index, and when the extracted
span itself fails to parse the failure is a JSON decode error without the
batch index. -/
theorem c4_parse_recovery_amended :
    (∀ i content obj, json_loads content = some obj →
      safe_json_loads_in_batch i content = Except.ok obj) ∧
    (∀ i content t obj, json_loads content = none → brace_span content = some t →
      json_loads t = some obj →
      safe_json_loads_in_batch i content = Except.ok obj) ∧
    (∀ i content, json_loads content = none → brace_span content = none →
      safe_json_loads_in_batch i content =
        Except.error (GatewayError.notJsonInBatch i)) ∧
    safe_json_loads_in_batch 1 "Sure! \x7b\"t1\": \"hi\"\x7d" =
      Except.ok (Json.objCons "t1" (Json.str "hi") Json.objNil) := by
  refine ⟨?_, ?_, ?_, ?_⟩
  · intro i content obj h
    simp only [safe_json_loads_in_batch, h]
  · intro i content t obj h1 h2 h3
    simp only [safe_json_loads_in_batch, h1, h2, h3]
  · intro i content h1 h2
    simp only [safe_json_loads_in_batch, h1, h2]
  · rfl

/-- Claim C4 (witness): the recovery branch applied to a concrete response
with prose around a JSON object. -/
theorem c4_parse_recovery_amended_witness :
    safe_json_loads_in_batch 2 "ok \x7b\"a\": \"b\"\x7d" =
      Except.ok (Json.objCons "a" (Json.str "b") Json.objNil) :=
  c4_parse_recovery_amended.2.1 2 "ok \x7b\"a\": \"b\"\x7d" "\x7b\"a\": \"b\"\x7d"
    (Json.objCons "a" (Json.str "b") Json.objNil) (by decide) (by decide)
    (by decide)

/-- Claim C5: under the ceiling `MAX_CHARS = 12000`, every batch produced by
the batching loop has estimated payload (sum of `len(id) + len(text) + 6`
over its ids) at most the ceiling, except a singleton batch whose single id
alone exceeds it; ids are never dropped or truncated (follows with C6's
partition property). -/
theorem c5_size_bound (m : List (String × String))
    (hnd : (m.map Prod.fst).Nodup) :
    ∀ b ∈ make_batches m,
      estSize m b ≤ MAX_CHARS ∨ ∃ k, b = [k] ∧ MAX_CHARS < itemSize m k := by
  intro b hb
  rw [make_batches_eq_kv] at hb
  obtain ⟨bk, hbk, rfl⟩ := List.mem_map.mp hb
  have hmem := make_batches_kv_mem m bk hbk
  have hlk : ∀ kv ∈ bk, lookupS m kv.1 = some kv.2 :=
    fun kv hkv => lookupS_of_mem_nodup hnd (hmem kv hkv)
  have hest := estSize_eq_batchTotal m bk hlk
  rcases make_batches_kv_sizes m bk hbk with hle | ⟨kv, rfl, hgt⟩
  · left
    rw [hest]
    exact hle
  · right
    refine ⟨kv.1, rfl, ?_⟩
    have hkv := hlk kv (List.mem_cons_self _ _)
    have : itemSize m kv.1 = pairSize kv := by
      simp [itemSize, pairSize, textOf, hkv]
    rw [this]
    exact hgt

/-- Claim C5 (witness): the size bound at a concrete two-item mapping. -/
theorem c5_size_bound_witness :
    estSize [("t1", "hello"), ("t2", "world")] ["t1", "t2"] ≤ MAX_CHARS ∨
      ∃ k, (["t1", "t2"] : List String) = [k] ∧
        MAX_CHARS < itemSize [("t1", "hello"), ("t2", "world")] k :=
  c5_size_bound [("t1", "hello"), ("t2", "world")] (by decide) ["t1", "t2"]
    (by decide)

/-- Claim C6: the batcher's output is an ordered partition of the mapping's
ids — concatenating the batches in order reproduces the mapping's id order
exactly (hence no duplicates and no omissions), every batch is non-empty,
and the empty mapping yields zero batches (so the gateway loop performs zero
model calls). -/
theorem c6_batch_partition (m : List (String × String)) :
    (make_batches m).flatten = m.map Prod.fst ∧
    (∀ b ∈ make_batches m, b ≠ []) ∧
    make_batches ([] : List (String × String)) = [] :=
  ⟨make_batches_join m, make_batches_nonempty m, rfl⟩

/-- Claim C6 (witness): the partition property at a concrete mapping. -/
theorem c6_batch_partition_witness : (["t1", "t2"] : List String) ≠ [] :=
  (c6_batch_partition [("t1", "a"), ("t2", "b")]).2.1 ["t1", "t2"] (by decide)

/-- Claim C7 (counterexample): the tokenizer starts at `soup.body`, so for a
document with visible title text in the head —
`<html><head><title>Hello</title></head><body><p>Hi</p></body></html>` —
the non-whitespace text leaf `Hello` receives no id and is absent from the
mapping, contradicting the claim that every non-blank text leaf produces
exactly one mapping entry. -/
theorem c7_counterexample :
    (extract_text_nodes_as_mapping exDocHead).2 =
      [("t1", NodeInfo.mk "Hi" "p")] ∧
    pyNonBlank "Hello" = true ∧
    "Hello" ∈ textLeaves exDocHead ∧
    "Hello" ∉ ((extract_text_nodes_as_mapping exDocHead).2.map
        (fun p => p.2.text)) := by
  refine ⟨?_, ?_, ?_, ?_⟩
  · decide
  · decide
  · decide
  · decide

/-- Claim C7 (amended): the tokenizer assigns exactly one sequential id
(`t1, t2, …`, depth-first document order) to every non-blank text leaf
*within the first body element* of the stripped document (or within the
whole document when no body element exists), recording its text and the
lower-cased name of its immediate container (default `"div"` for an unnamed
container); whitespace-only text leaves produce no mapping entry. -/
theorem c7_id_coverage_amended (doc : Dom) :
    (extract_text_nodes_as_mapping doc).2 = mapping_spec doc :=
  extract_mapping_eq doc

/-- Claim C8: reassembly changes only the text content of placeholder
elements whose id is in the replacement map (placeholders with absent ids
keep their original content), removes the `data-hid` attribute from every
placeholder so it never appears in the output, and leaves every other tag,
attribute and their ordering unchanged — stated as equality with the
specification's one-pass description, plus the absence of any `data-hid`
attribute in the output. -/
theorem c8_reassembler_frame (doc : Dom) (repl : List (String × String)) :
    replace_text_nodes_from_mapping doc repl = repl_spec repl doc ∧
    hasHidAttr (replace_text_nodes_from_mapping doc repl) = false := by
  constructor
  · exact replace_eq_repl_spec doc repl
  · rw [replace_text_nodes_from_mapping]
    exact hasHid_strip_hid _

/-- Claim C9: all script/style/noscript elements are removed before
tokenization — the stripped tree contains none — and every text recorded in
the id-to-text mapping is a text leaf of the stripped tree, so no text
contained in those elements ever reaches the mapping or a model payload. -/
theorem c9_script_style_stripped (doc : Dom) :
    hasBadElem (stripBad doc) = false ∧
    (∀ p ∈ (extract_text_nodes_as_mapping doc).2,
      p.2.text ∈ textLeaves (stripBad doc)) :=
  ⟨stripBad_no_bad doc, fun p hp => extract_mapping_text_mem doc p hp⟩

/-- Claim C9 (witness): the mapping-membership conjunct instantiated on the
parse of `<p>Hello <b>world</b></p>`. -/
theorem c9_script_style_stripped_witness :
    ("Hello " : String) ∈ textLeaves (stripBad exDoc) :=
  (c9_script_style_stripped exDoc).2 ("t1", NodeInfo.mk "Hello " "p") (by decide)

/-- Claim C10: `is_html` (src/app.py) returns `true` for every input with at
least one non-whitespace character and no angle brackets at all: the quick
angle-bracket tests all fail, and the lxml fallback wraps bare text in
`html/body`, making `soup.find()` truthy — such plain text is therefore
routed through the HTML pipeline. -/
theorem c10_is_html_plain_text (s : String) (h1 : '<' ∉ s.data)
    (h2 : '>' ∉ s.data) (h3 : pyNonBlank s = true) : is_html s = true := by
  have hne : s ≠ "" := by
    intro he
    subst he
    simp [pyNonBlank] at h3
  have ha : hasPairSub '<' '/' s.data = false := by
    cases hh : hasPairSub '<' '/' s.data
    · rfl
    · exact absurd (hasPairSub_mem '<' '/' s.data hh).1 h1
  have hb : hasPairSub '/' '>' s.data = false := by
    cases hh : hasPairSub '/' '>' s.data
    · rfl
    · exact absurd (hasPairSub_mem '/' '>' s.data hh).2 h2
  have hc : hasOpenTagMatch s.data = false := by
    cases hh : hasOpenTagMatch s.data
    · rfl
    · exact absurd (hasOpenTagMatch_mem s.data hh) h1
  have hcond : (pyNonBlank s && !s.data.contains '<' && !s.data.contains '>') = true := by
    rw [h3, contains_false_of_not_mem h1, contains_false_of_not_mem h2]
    rfl
  rw [is_html, if_neg hne, ha, hb, hc]
  simp only [Bool.or_self, Bool.or_false, Bool.false_eq_true, if_false]
  rw [lxml_parse_plain, if_pos hcond]
  rfl

/-- Claim C10 (witness): plain text with no markup is classified as HTML. -/
theorem c10_is_html_plain_text_witness : is_html "hello world" = true :=
  c10_is_html_plain_text "hello world" (by decide) (by decide) (by decide)
